import Mathlib

/-!
Verification development for the personal_server backend.

This file gives a shallow embedding, in Lean 4, of the core components of the
repository — the URL normalizer (built on CPython 3.11 `urllib.parse`), the two
TTL cache stores, the rate limiter, the single-page crawl executor with its
upstream-payload parser, and the recursive crawl orchestrator — and proves or
refutes the frozen specification claims about them.

Modelling conventions:
* Python strings are modelled as `List Char` internally (`String` at the API
  boundary); `str.lower` is modelled on ASCII (all URLs and city names in
  scope are ASCII; the claims do not depend on non-ASCII case folding).
* Wall-clock timestamps are `Int` values in abstract units; `datetime.now()`
  becomes an explicit `now` parameter.
* `hashlib.md5(canonical_json)` cache keys are modelled by the canonical data
  that is serialized and hashed: the serialization is deterministic and
  injective, so key equality/inequality coincides with equality/inequality of
  that data (up to MD5 collisions, which are not modelled).
* Functions that can raise return `Except String` / `Option`; a `.error` is a
  propagating Python exception.
* The `ipaddress` host grammar and the NFKC netloc check of `urllib.parse`
  are beyond the scope of every claim; they are modelled by an abstract
  predicate bundle `StdlibChecks` over which all theorems are universally
  quantified.
-/

namespace PersonalServer

/-! ## Character and list utilities shared by the embeddings -/

/-- ASCII lower-casing of one character, modelling Python `str.lower` on the
ASCII subset. -/
def pyLowerChar (c : Char) : Char :=
  if 'A' ≤ c ∧ c ≤ 'Z' then Char.ofNat (c.toNat + 32) else c

/-- Python `str.lower` on a character list (ASCII model). -/
def pyLower (s : List Char) : List Char := s.map pyLowerChar

/-- Characters valid in URL scheme names (`urllib.parse.scheme_chars`). -/
def isSchemeChar (c : Char) : Bool :=
  c.isAlpha || c.isDigit || c = '+' || c = '-' || c = '.'

/-- Membership in `_WHATWG_C0_CONTROL_OR_SPACE` (code points 0x00–0x20). -/
def isC0OrSpace (c : Char) : Bool := c.toNat ≤ 0x20

/-- Membership in `_UNSAFE_URL_BYTES_TO_REMOVE` (tab, CR, LF). -/
def isUnsafeUrlByte (c : Char) : Bool := c = '\t' || c = '\r' || c = '\n'

/-- Split a list at the first occurrence of `delim`; `none` when absent.
Models `s.find(c)` followed by slicing `s[:i], s[i+1:]`. -/
def splitFirst (delim : Char) : List Char → Option (List Char × List Char)
  | [] => none
  | c :: cs =>
    if c = delim then some ([], cs)
    else
      match splitFirst delim cs with
      | some (a, b) => some (c :: a, b)
      | none => none

/-- Split a list at the last occurrence of `delim`; `none` when absent.
Models `s.rfind(c)` followed by slicing. -/
def splitLast (delim : Char) (cs : List Char) : Option (List Char × List Char) :=
  match splitFirst delim cs.reverse with
  | some (a, b) => some (b.reverse, a.reverse)
  | none => none

/-- Python `s.rstrip("/")`: drop every trailing slash. -/
def rstripSlash (cs : List Char) : List Char :=
  (cs.reverse.dropWhile (fun c => c = '/')).reverse

/-- Python `s.strip()` (whitespace at both ends; ASCII whitespace model). -/
def pyStrip (cs : List Char) : List Char :=
  ((cs.dropWhile Char.isWhitespace).reverse.dropWhile Char.isWhitespace).reverse

/-- Python `s.count(c)` for a single-character needle. -/
def pyCountChar (needle : Char) (cs : List Char) : Nat :=
  (cs.filter (fun c => c = needle)).length

/-- Python `s.split(sep)` for a single-character separator (never returns an
empty list of parts). -/
def pySplitChar (sep : Char) : List Char → List (List Char)
  | [] => [[]]
  | c :: cs =>
    let rest := pySplitChar sep cs
    if c = sep then [] :: rest
    else
      match rest with
      | [] => [[c]]
      | p :: ps => (c :: p) :: ps

/-- Python `sep.join(parts)` for a single-character separator. -/
def pyJoinChar (sep : Char) : List (List Char) → List Char
  | [] => []
  | [p] => p
  | p :: ps => p ++ sep :: pyJoinChar sep ps

/-! ## Embedding of CPython 3.11 `urllib.parse`

Translated from `/usr/lib/python3.11/urllib/parse.py` (`urlsplit`, `urlparse`,
`_splitparams`, `_splitnetloc`, `urlunsplit`, `urlunparse`, `urljoin`).
`allow_fragments` is always `True` in this repository, so it is inlined. -/

/-- Result of `urlsplit`: scheme, netloc, path, query, fragment. -/
structure SplitResult where
  scheme : List Char
  netloc : List Char
  path : List Char
  query : List Char
  fragment : List Char
deriving DecidableEq, Repr

/-- Result of `urlparse`: `SplitResult` plus the params component. -/
structure ParseResult where
  scheme : List Char
  netloc : List Char
  path : List Char
  params : List Char
  query : List Char
  fragment : List Char
deriving DecidableEq, Repr

/-- Abstract model of the two stdlib validity checks whose grammar is beyond
the scope of every claim: `_check_bracketed_host` (the `ipaddress` grammar)
and the non-ASCII branch of `_checknetloc` (NFKC normalization). All theorems
are universally quantified over this bundle. -/
structure StdlibChecks where
  bracketedHostOk : List Char → Bool
  nonAsciiNetlocOk : List Char → Bool

/-- The `uses_params` scheme list of `urllib.parse`. -/
def usesParams : List (List Char) :=
  ["", "ftp", "hdl", "prospero", "http", "imap", "https", "shttp", "rtsp",
   "rtsps", "rtspu", "sip", "sips", "mms", "sftp", "tel"].map String.data

/-- The `uses_relative` scheme list of `urllib.parse`. -/
def usesRelative : List (List Char) :=
  ["", "ftp", "http", "gopher", "nntp", "imap", "wais", "file", "https",
   "shttp", "mms", "prospero", "rtsp", "rtsps", "rtspu", "sftp", "svn",
   "svn+ssh", "ws", "wss"].map String.data

/-- The `uses_netloc` scheme list of `urllib.parse`. -/
def usesNetloc : List (List Char) :=
  ["", "ftp", "http", "gopher", "nntp", "telnet", "imap", "wais", "file",
   "mms", "https", "shttp", "snews", "prospero", "rtsp", "rtsps", "rtspu",
   "rsync", "svn", "svn+ssh", "sftp", "nfs", "git", "git+ssh", "ws",
   "wss"].map String.data

/-- `_splitnetloc(url, 2)` without the two leading slashes: the netloc runs to
the first of `/`, `?`, `#`. -/
def isNetlocDelim (c : Char) : Bool := c = '/' || c = '?' || c = '#'

/-- `_checknetloc`: an empty or all-ASCII netloc always passes; otherwise the
NFKC expansion check applies (abstract). -/
def checknetloc (checks : StdlibChecks) (netloc : List Char) : Except String Unit :=
  if netloc = [] ∨ netloc.all (fun c => c.toNat < 128) then pure ()
  else if checks.nonAsciiNetlocOk netloc then pure ()
  else Except.error "netloc contains invalid characters under NFKC normalization"

/-- Bracketed-host extraction and validation inside the netloc branch of
`urlsplit`: mismatched brackets raise `Invalid IPv6 URL`; a matched pair is
checked by `_check_bracketed_host` (abstract grammar). -/
def checkNetlocBrackets (checks : StdlibChecks) (nl : List Char) : Except String Unit :=
  if ('[' ∈ nl ∧ ']' ∉ nl) ∨ (']' ∈ nl ∧ '[' ∉ nl) then
    Except.error "Invalid IPv6 URL"
  else if '[' ∈ nl ∧ ']' ∈ nl then
    -- netloc.partition('[')[2].partition(']')[0]
    let afterBracket := ((nl.dropWhile (fun c => c ≠ '[')).drop 1)
    let bracketedHost := afterBracket.takeWhile (fun c => c ≠ ']')
    if checks.bracketedHostOk bracketedHost then pure ()
    else Except.error "invalid bracketed host"
  else pure ()

/-- CPython 3.11 `urlsplit(url, scheme=default, allow_fragments=True)`.
The input is first lstripped of C0 controls and spaces, then tab/CR/LF are
removed everywhere. -/
def urlsplit (checks : StdlibChecks) (defaultScheme : List Char)
    (url0 : List Char) : Except String SplitResult := do
  let url1 := (url0.dropWhile isC0OrSpace).filter (fun c => ¬ isUnsafeUrlByte c)
  let default1 :=
    (pyStrip defaultScheme).filter (fun c => ¬ isUnsafeUrlByte c)
  -- scheme detection: i = url.find(':'); i > 0, leading ASCII letter,
  -- every character before the colon in scheme_chars
  let (scheme, rest) :=
    match splitFirst ':' url1 with
    | some (pre, post) =>
      match pre with
      | [] => (default1, url1)
      | c :: _ =>
        if c.isAlpha ∧ pre.all isSchemeChar then (pyLower pre, post)
        else (default1, url1)
    | none => (default1, url1)
  -- netloc: only when the remainder starts with '//'
  let (netloc, rest2) ←
    match rest with
    | '/' :: '/' :: tail => do
      let nl := tail.takeWhile (fun c => ¬ isNetlocDelim c)
      let rm := tail.dropWhile (fun c => ¬ isNetlocDelim c)
      checkNetlocBrackets checks nl
      pure (nl, rm)
    | _ => pure (([] : List Char), rest)
  -- fragment split (allow_fragments is always true in this repository)
  let (rest3, fragment) :=
    match splitFirst '#' rest2 with
    | some (a, b) => (a, b)
    | none => (rest2, [])
  -- query split
  let (path, query) :=
    match splitFirst '?' rest3 with
    | some (a, b) => (a, b)
    | none => (rest3, [])
  checknetloc checks netloc
  pure ⟨scheme, netloc, path, query, fragment⟩

/-- CPython `_splitparams`. Only reached when `';' ∈ url`; the unguarded
`i = url.find(';')` miss (slicing with `i = -1`) is embedded literally for
totality. -/
def splitparams (url : List Char) : List Char × List Char :=
  if '/' ∈ url then
    match splitLast '/' url with
    | some (pre, suf) =>
      -- i = url.find(';', url.rfind('/')): search from the last slash on
      match splitFirst ';' suf with
      | some (a, b) => (pre ++ '/' :: a, b)
      | none => (url, [])
    | none => (url, [])
  else
    match splitFirst ';' url with
    | some (a, b) => (a, b)
    | none => (url.dropLast, url)

/-- CPython 3.11 `urlparse(url, scheme=default, allow_fragments=True)`. -/
def urlparse (checks : StdlibChecks) (defaultScheme : List Char)
    (url : List Char) : Except String ParseResult := do
  let s ← urlsplit checks defaultScheme url
  let (p, par) :=
    if s.scheme ∈ usesParams ∧ ';' ∈ s.path then splitparams s.path
    else (s.path, [])
  pure ⟨s.scheme, s.netloc, p, par, s.query, s.fragment⟩

/-- CPython 3.11 `urlunsplit`. -/
def urlunsplit (c : SplitResult) : List Char :=
  let url := c.path
  let url :=
    if c.netloc ≠ [] ∨
        (c.scheme ≠ [] ∧ c.scheme ∈ usesNetloc ∧ url.take 2 ≠ ['/', '/']) then
      let url := if url ≠ [] ∧ url.take 1 ≠ ['/'] then '/' :: url else url
      '/' :: '/' :: (c.netloc ++ url)
    else url
  let url := if c.scheme ≠ [] then c.scheme ++ ':' :: url else url
  let url := if c.query ≠ [] then url ++ '?' :: c.query else url
  if c.fragment ≠ [] then url ++ '#' :: c.fragment else url

/-- CPython 3.11 `urlunparse`. -/
def urlunparse (c : ParseResult) : List Char :=
  let url := if c.params ≠ [] then c.path ++ ';' :: c.params else c.path
  urlunsplit ⟨c.scheme, c.netloc, url, c.query, c.fragment⟩

/-- Segment resolution loop of `urljoin` (`for seg in segments: ...`),
including the ignored `IndexError` on popping an empty list. -/
def resolveSegments (segments : List (List Char)) : List (List Char) :=
  segments.foldl
    (fun acc seg =>
      if seg = [ '.', '.' ] then acc.dropLast
      else if seg = [ '.' ] then acc
      else acc ++ [seg])
    []

/-- CPython 3.11 `urljoin(base, url)`. -/
def urljoin (checks : StdlibChecks) (base url : List Char) :
    Except String (List Char) := do
  if base = [] then pure url
  else if url = [] then pure base
  else do
    let b ← urlparse checks [] base
    let u ← urlparse checks b.scheme url
    if u.scheme ≠ b.scheme ∨ u.scheme ∉ usesRelative then pure url
    else do
      let netloc0 := u.netloc
      -- `if scheme in uses_netloc: if netloc: return ...; netloc = bnetloc`
      if u.scheme ∈ usesNetloc ∧ u.netloc ≠ [] then
        pure (urlunparse ⟨u.scheme, u.netloc, u.path, u.params, u.query, u.fragment⟩)
      else do
        let netloc := if u.scheme ∈ usesNetloc then b.netloc else netloc0
        if u.path = [] ∧ u.params = [] then
          let query := if u.query = [] then b.query else u.query
          pure (urlunparse ⟨u.scheme, netloc, b.path, b.params, query, u.fragment⟩)
        else do
          let baseParts0 := pySplitChar '/' b.path
          let baseParts :=
            if baseParts0.getLastD [] ≠ [] then baseParts0.dropLast else baseParts0
          let segments :=
            if u.path.take 1 = ['/'] then pySplitChar '/' u.path
            else
              -- segments[1:-1] = filter(None, segments[1:-1])
              let segs := baseParts ++ pySplitChar '/' u.path
              match segs with
              | [] => []
              | [s] => [s]
              | s :: rest =>
                s :: ((rest.dropLast.filter (fun p => p ≠ [])) ++ [rest.getLastD []])
          let resolved := resolveSegments segments
          let resolved :=
            if segments.getLastD [] = [ '.' ] ∨ segments.getLastD [] = [ '.', '.' ] then
              resolved ++ [[]]
            else resolved
          let joined := pyJoinChar '/' resolved
          let path := if joined = [] then [ '/' ] else joined
          pure (urlunparse ⟨u.scheme, netloc, path, u.params, u.query, u.fragment⟩)

/-! ## Association-list helpers modelling Python `dict` -/

section AssocList
variable {κ α : Type} [DecidableEq κ]

/-- Python `d.get(k)` / `k in d` lookup. -/
def alFind (k : κ) : List (κ × α) → Option α
  | [] => none
  | (k0, v) :: rest => if k0 = k then some v else alFind k rest

/-- Python `del d[k]`. -/
def alErase (k : κ) : List (κ × α) → List (κ × α)
  | [] => []
  | (k0, v) :: rest => if k0 = k then rest else (k0, v) :: alErase k rest

/-- Python `d[k] = v`: replace in place when present, else append (dicts keep
insertion order). -/
def alInsert (k : κ) (v : α) : List (κ × α) → List (κ × α)
  | [] => [(k, v)]
  | (k0, v0) :: rest =>
    if k0 = k then (k0, v) :: rest else (k0, v0) :: alInsert k v rest

end AssocList

/-! ## Crawling request and options (models/crawling.py, services/crawling.py) -/

/-- `cache_mode: Literal["enabled", "disabled", "bypass"]`. -/
inductive CacheMode where
  | enabled
  | disabled
  | bypass
deriving DecidableEq, Repr

/-- The validated `CrawlRequest` pydantic model (the fields the core reads).
`screenshot_width/height/wait_for` are `int | None` in the source, hence
`Option Nat`. -/
structure CrawlRequest where
  urls : List String
  markdown_only : Bool := false
  scrape_internal_links : Bool := false
  scrape_external_links : Bool := false
  follow_internal_links : Bool := false
  follow_external_links : Bool := false
  max_depth : Nat := 1
  max_pages : Nat := 10
  capture_screenshots : Bool := false
  screenshot_width : Option Nat := some 1920
  screenshot_height : Option Nat := some 1080
  screenshot_wait_for : Option Nat := some 2
  cache_mode : CacheMode := .enabled
deriving DecidableEq, Repr

/-- The pydantic validation of `CrawlRequest` (field bounds plus
`validate_urls` / `validate_screenshot_options`), as a predicate: a request
reaching the core satisfies this. -/
def CrawlRequest.Valid (r : CrawlRequest) : Prop :=
  1 ≤ r.urls.length ∧ r.urls.length ≤ 10 ∧
  1 ≤ r.max_depth ∧ r.max_depth ≤ 5 ∧
  1 ≤ r.max_pages ∧ r.max_pages ≤ 50 ∧
  (r.capture_screenshots = true →
    r.screenshot_width.isSome ∧ r.screenshot_height.isSome) ∧
  (r.follow_internal_links = true → r.scrape_internal_links = true) ∧
  (r.follow_external_links = true → r.scrape_external_links = true) ∧
  ((r.follow_internal_links = true ∨ r.follow_external_links = true) →
    r.urls.length ≤ 3) ∧
  (r.follow_external_links = true → r.max_depth ≤ 3 ∧ r.max_pages ≤ 20)

instance (r : CrawlRequest) : Decidable r.Valid := by
  unfold CrawlRequest.Valid; infer_instance

/-- The options dictionary built by `CrawlingService._request_to_options`.
The three screenshot keys are present in the dict only when
`capture_screenshots` is set (outer `Option` = key presence; inner
`Option Nat` = the stored value, which may be JSON null). -/
structure OptionsDict where
  markdown_only : Bool
  scrape_internal_links : Bool
  scrape_external_links : Bool
  capture_screenshots : Bool
  follow_internal_links : Bool
  follow_external_links : Bool
  max_depth : Nat
  max_pages : Nat
  screenshot_width : Option (Option Nat) := none
  screenshot_height : Option (Option Nat) := none
  screenshot_wait_for : Option (Option Nat) := none
deriving DecidableEq, Repr

/-- `CrawlingService._request_to_options`. -/
def requestToOptions (r : CrawlRequest) : OptionsDict :=
  { markdown_only := r.markdown_only
    scrape_internal_links := r.scrape_internal_links
    scrape_external_links := r.scrape_external_links
    capture_screenshots := r.capture_screenshots
    follow_internal_links := r.follow_internal_links
    follow_external_links := r.follow_external_links
    max_depth := r.max_depth
    max_pages := r.max_pages
    screenshot_width :=
      if r.capture_screenshots then some r.screenshot_width else none
    screenshot_height :=
      if r.capture_screenshots then some r.screenshot_height else none
    screenshot_wait_for :=
      if r.capture_screenshots then some r.screenshot_wait_for else none }

/-! ## Crawling cache (services/crawl_cache.py) -/

/-- `CrawlingCache._normalize_url`: strip + lowercase, then drop trailing
slashes when the URL has more than two slashes (the `count == 3` branch is
subsumed but embedded literally). -/
def cacheNormalizeUrl (url : List Char) : List Char :=
  let u := pyLower (pyStrip url)
  if u.getLastD ' ' = '/' ∧ pyCountChar '/' u > 2 then rstripSlash u
  else if u.getLastD ' ' = '/' ∧ pyCountChar '/' u = 3 then rstripSlash u
  else u

/-- Screenshot-specific options included in the cache key when screenshots
are enabled. -/
structure ScreenshotKeyOpts where
  width : Option Nat
  height : Option Nat
  wait_for : Option Nat
deriving DecidableEq, Repr

/-- The cache-relevant option subset hashed by `CrawlingCache._get_key`. -/
structure CacheRelevantOptions where
  markdown_only : Bool
  scrape_internal_links : Bool
  scrape_external_links : Bool
  capture_screenshots : Bool
  screenshot : Option ScreenshotKeyOpts
deriving DecidableEq, Repr

/-- The data `_get_key` serializes deterministically (`json.dumps` with
sorted keys) and hashes with MD5. The hash of this canonical serialization
is modelled by the data itself. -/
structure CacheKeyData where
  url : List Char
  options : CacheRelevantOptions
deriving DecidableEq, Repr

/-- `options.get(name, default)` for a conditionally present key whose stored
value may itself be JSON null. -/
def optGetWithDefault (o : Option (Option Nat)) (d : Nat) : Option Nat :=
  match o with
  | some v => v
  | none => some d

/-- `CrawlingCache._get_key`. -/
def getKey (url : List Char) (options : OptionsDict) : CacheKeyData :=
  let rel : CacheRelevantOptions :=
    { markdown_only := options.markdown_only
      scrape_internal_links := options.scrape_internal_links
      scrape_external_links := options.scrape_external_links
      capture_screenshots := options.capture_screenshots
      screenshot :=
        if options.capture_screenshots then
          some { width := optGetWithDefault options.screenshot_width 1920
                 height := optGetWithDefault options.screenshot_height 1080
                 wait_for := optGetWithDefault options.screenshot_wait_for 2 }
        else none }
  ⟨cacheNormalizeUrl url, rel⟩

/-! ## JSON payloads from the upstream crawling service

The `/task/{id}` response body (`crawl_data`) is an arbitrary JSON document;
the parser in `_parse_crawl_response` must swallow every malformed shape.
JSON numbers are modelled as integers (no claim involves fractional
numbers). -/

/-- A JSON value as handled by the parsing code. -/
inductive Json where
  | null
  | bool (b : Bool)
  | int (n : Int)
  | str (s : String)
  | arr (elems : List Json)
  | obj (fields : List (String × Json))
deriving Repr

/-- Python truthiness of a JSON-decoded value. -/
def Json.truthy : Json → Bool
  | .null => false
  | .bool b => b
  | .int n => n ≠ 0
  | .str s => s ≠ ""
  | .arr xs => ¬ xs.isEmpty
  | .obj fs => ¬ fs.isEmpty

/-- Python `d.get(k, default)`: raises `AttributeError` on a non-dict. -/
def Json.get (j : Json) (k : String) (dflt : Json) : Except String Json :=
  match j with
  | .obj fs =>
    match alFind k fs with
    | some v => Except.ok v
    | none => Except.ok dflt
  | _ => Except.error "object has no attribute get"

mutual

/-- Python `repr` of a JSON-decoded value (used by `str` on containers). -/
def Json.pyRepr : Json → String
  | .null => "None"
  | .bool true => "True"
  | .bool false => "False"
  | .int n => toString n
  | .str s => String.singleton (Char.ofNat 39) ++ s ++ String.singleton (Char.ofNat 39)
  | .arr xs => "[" ++ Json.pyReprElems xs ++ "]"
  | .obj fs => "\x7b" ++ Json.pyReprFields fs ++ "\x7d"

/-- Comma-separated reprs of array elements. -/
def Json.pyReprElems : List Json → String
  | [] => ""
  | [x] => Json.pyRepr x
  | x :: xs => Json.pyRepr x ++ ", " ++ Json.pyReprElems xs

/-- Comma-separated reprs of object entries. -/
def Json.pyReprFields : List (String × Json) → String
  | [] => ""
  | [(k, v)] => String.singleton (Char.ofNat 39) ++ k ++ String.singleton (Char.ofNat 39) ++ ": " ++ Json.pyRepr v
  | (k, v) :: fs => String.singleton (Char.ofNat 39) ++ k ++ String.singleton (Char.ofNat 39) ++ ": " ++ Json.pyRepr v ++ ", " ++ Json.pyReprFields fs

end

/-- Python `str` of a JSON-decoded value. -/
def Json.pyStr : Json → String
  | .str s => s
  | j => j.pyRepr

/-- Python iteration (`for x in v`): lists yield elements, dicts yield keys,
strings yield characters; other values raise `TypeError`. -/
def Json.iterate : Json → Except String (List Json)
  | .arr xs => Except.ok xs
  | .obj fs => Except.ok (fs.map (fun kv => Json.str kv.1))
  | .str s => Except.ok (s.data.map (fun c => Json.str (String.mk [c])))
  | _ => Except.error "object is not iterable"

/-! ## base64 decoding and PNG header inspection -/

/-- Value of one base64 alphabet character. -/
def b64Val (c : Char) : Option Nat :=
  if 'A' ≤ c ∧ c ≤ 'Z' then some (c.toNat - 65)
  else if 'a' ≤ c ∧ c ≤ 'z' then some (c.toNat - 97 + 26)
  else if '0' ≤ c ∧ c ≤ '9' then some (c.toNat - 48 + 52)
  else if c = '+' then some 62
  else if c = '/' then some 63
  else none

/-- Main loop of `binascii.a2b_base64` with `strict_mode=False`, carrying its
`quad_pos`, `leftchar` and `pads` state: non-alphabet characters are skipped;
a `=` increments the pad count only once two digits of the current quantum
are in, and a completed pad sequence (`quad_pos + pads ≥ 4`) stops decoding,
ignoring whatever follows; a data character resets the pad count; input
exhausted mid-quantum raises (one leftover digit is impossible, two or three
are <<Invalid padding>>). -/
def a2bBase64 : List Char → Nat → Nat → Nat → Except String (List Nat)
  | [], quadPos, _, _ =>
    if quadPos = 0 then Except.ok []
    else if quadPos = 1 then
      Except.error
        "Invalid base64-encoded string: number of data characters cannot be 1 more than a multiple of 4"
    else Except.error "Invalid padding"
  | ch :: rest, quadPos, leftchar, pads =>
    if ch = '=' then
      if 2 ≤ quadPos then
        if 4 ≤ quadPos + pads + 1 then Except.ok []
        else a2bBase64 rest quadPos leftchar (pads + 1)
      else a2bBase64 rest quadPos leftchar pads
    else
      match b64Val ch with
      | none => a2bBase64 rest quadPos leftchar pads
      | some v =>
        if quadPos = 0 then a2bBase64 rest 1 v 0
        else if quadPos = 1 then do
          let tail ← a2bBase64 rest 2 (v % 16) 0
          Except.ok ((leftchar * 4 + v / 16) :: tail)
        else if quadPos = 2 then do
          let tail ← a2bBase64 rest 3 (v % 4) 0
          Except.ok ((leftchar * 16 + v / 4) :: tail)
        else do
          let tail ← a2bBase64 rest 0 0 0
          Except.ok ((leftchar * 64 + v) :: tail)

/-- `base64.b64decode(s)` (default `validate=False`): encoding a non-ASCII
string raises; otherwise the non-strict `binascii.a2b_base64` runs from a
fresh state. -/
def b64decode (s : String) : Except String (List Nat) :=
  if s.data.any (fun c => c.toNat ≥ 128) then
    Except.error "string argument should contain only ASCII characters"
  else a2bBase64 s.data 0 0 0

/-- Big-endian 32-bit integer from four bytes. -/
def be32 (b0 b1 b2 b3 : Nat) : Nat :=
  ((b0 * 256 + b1) * 256 + b2) * 256 + b3

/-- The 8-byte PNG signature. -/
def pngSignature : List Nat := [0x89, 0x50, 0x4E, 0x47, 0x0D, 0x0A, 0x1A, 0x0A]

/-- `CrawlingService._get_png_dimensions`: length and signature checks, then
the big-endian width/height words of the IHDR chunk. The internal
`try/except` can never fire (no operation raises); it is omitted. -/
def getPngDimensions (png : List Nat) : Option (Int × Int) :=
  if png.length < 24 then none
  else if png.take 8 ≠ pngSignature then none
  else if png.length < 16 then none
  else if png.length < 24 then none
  else
    match png.drop 16 with
    | b0 :: b1 :: b2 :: b3 :: b4 :: b5 :: b6 :: b7 :: _ =>
      some ((be32 b0 b1 b2 b3 : Int), (be32 b4 b5 b6 b7 : Int))
    | _ => none

/-! ## CrawlResult (models/crawling.py) -/

/-- The `CrawlResult` pydantic model. String fields are Lean `String`s;
`screenshot_size` is the validated `{width, height}` dictionary;
`crawl_time_seconds` is in abstract integer time units. -/
structure CrawlResult where
  url : String
  success : Bool
  depth : Nat := 0
  markdown : Option String := none
  cleaned_html : Option String := none
  metadata : Option (List (String × Json)) := none
  internal_links : Option (List String) := none
  external_links : Option (List String) := none
  screenshot_base64 : Option String := none
  screenshot_size : Option (Int × Int) := none
  error_message : Option String := none
  status_code : Option Int := none
  crawl_time_seconds : Option Int := none

/-- Python truthiness of an optional string (`None` and `""` are falsy). -/
def truthyOptStr : Option String → Bool
  | none => false
  | some s => s ≠ ""

/-- `CrawlResult.validate_success_consistency`, run by pydantic on every
construction: an error here is a `ValidationError` raised at the
construction site. -/
def validateCrawlResult (r : CrawlResult) : Except String CrawlResult := do
  if r.success then
    if ¬ truthyOptStr r.markdown then
      Except.error "Successful crawls must have markdown content"
    else pure ()
  else
    if ¬ truthyOptStr r.error_message then
      Except.error "Failed crawls must have an error message"
    else pure ()
  if truthyOptStr r.screenshot_base64 ∧ r.screenshot_size.isNone then
    Except.error "Screenshot data must include size information"
  else pure ()
  pure r

/-! ## Upstream payload parsing (CrawlingService._parse_crawl_response) -/

/-- Python `v[0]`: first element of a sequence; raises on unsubscriptable
values and on dicts without an integer key. -/
def Json.index0 : Json → Except String Json
  | .arr (x :: _) => Except.ok x
  | .arr [] => Except.error "list index out of range"
  | .str s =>
    match s.data with
    | c :: _ => Except.ok (.str (String.mk [c]))
    | [] => Except.error "string index out of range"
  | .obj _ => Except.error "KeyError: 0"
  | _ => Except.error "object is not subscriptable"

/-- Python `v == (n : int)` for a JSON-decoded value (`True == 1`,
numeric-string values do not compare equal to ints). -/
def Json.eqInt (j : Json) (n : Int) : Bool :=
  match j with
  | .int m => m = n
  | .bool b => (if b then (1 : Int) else 0) = n
  | _ => false

/-- Pydantic coercion into an `int | None` field (v2 lax mode: numeric
strings coerce, bools do not). -/
def coerceOptInt : Json → Except String (Option Int)
  | .null => Except.ok none
  | .int n => Except.ok (some n)
  | .str s =>
    match s.toInt? with
    | some n => Except.ok (some n)
    | none => Except.error "Input should be a valid integer"
  | _ => Except.error "Input should be a valid integer"

/-- Pydantic coercion into a `str | None` field (numbers are not coerced to
strings in v2). -/
def coerceOptStr : Json → Except String (Option String)
  | .null => Except.ok none
  | .str s => Except.ok (some s)
  | _ => Except.error "Input should be a valid string"

/-- Pydantic coercion into a `dict[str, Any] | None` field. -/
def coerceOptObj : Json → Except String (Option (List (String × Json)))
  | .null => Except.ok none
  | .obj fs => Except.ok (some fs)
  | _ => Except.error "Input should be a valid dictionary"

/-- Pydantic coercion of a screenshot-size dictionary into `dict[str, int]`
(`None` values are rejected). -/
def coerceSize : Option (Option Int × Option Int) → Except String (Option (Int × Int))
  | none => Except.ok none
  | some (some w, some h) => Except.ok (some (w, h))
  | some _ => Except.error "Input should be a valid integer"

/-- Elements of each `list[str]` links field must be strings. -/
def coerceStrList (xs : List Json) : Except String (List String) :=
  xs.mapM fun j =>
    match j with
    | .str s => Except.ok s
    | _ => Except.error "Input should be a valid string"

/-- The list comprehension
`[link.get("href", "") for link in xs if link.get("href")]`. -/
def extractHrefs (links : Json) : Except String (List Json) := do
  let items ← links.iterate
  items.foldlM
    (fun acc link => do
      let h ← link.get "href" (.str "")
      pure (if h.truthy then acc ++ [h] else acc))
    []

/-- The trailing-slash normalization applied when reporting a crawled URL:
`url.rstrip("/") if url.endswith("/") and url.count("/") == 3 else url`. -/
def stripSeedSlash (url : String) : String :=
  if url.data.getLastD ' ' = '/' ∧ pyCountChar '/' url.data = 3 then
    String.mk (rstripSlash url.data)
  else url

/-- The markdown-extraction paragraph of `_parse_crawl_response`: a dict
payload yields its `raw_markdown` member; any other value is stringified
when truthy. -/
def extractMarkdown (result_data : Json) : Except String Json := do
  let markdown_data ← result_data.get "markdown" (Json.obj [])
  match markdown_data with
  | .obj _ => markdown_data.get "raw_markdown" (Json.str "")
  | _ => pure (Json.str (if markdown_data.truthy then markdown_data.pyStr else ""))

/-- `cleaned_html` extraction (skipped in `markdown_only` mode). -/
def extractCleanedHtml (req : CrawlRequest) (result_data : Json) :
    Except String (Option String) :=
  if req.markdown_only then pure none
  else do
    let j ← result_data.get "cleaned_html" (Json.str "")
    coerceOptStr j

/-- `metadata` extraction (skipped in `markdown_only` mode). -/
def extractMetadata (req : CrawlRequest) (result_data : Json) :
    Except String (Option (List (String × Json))) :=
  if req.markdown_only then pure none
  else do
    let j ← result_data.get "metadata" (Json.obj [])
    coerceOptObj j

/-- One link list from the `links` payload member. -/
def extractLinkList (result_data : Json) (key : String) :
    Except String (Option (List String)) := do
  let links_data ← result_data.get "links" (Json.obj [])
  let l ← links_data.get key (Json.arr [])
  let hs ← extractHrefs l
  let ss ← coerceStrList hs
  pure (some ss)

/-- Internal links when either link-scrape flag is set and internal links are
requested. -/
def extractInternalLinks (req : CrawlRequest) (result_data : Json) :
    Except String (Option (List String)) :=
  if req.scrape_internal_links ∨ req.scrape_external_links then
    if req.scrape_internal_links then extractLinkList result_data "internal"
    else pure none
  else pure none

/-- External links when either link-scrape flag is set and external links are
requested. -/
def extractExternalLinks (req : CrawlRequest) (result_data : Json) :
    Except String (Option (List String)) :=
  if req.scrape_internal_links ∨ req.scrape_external_links then
    if req.scrape_external_links then extractLinkList result_data "external"
    else pure none
  else pure none

/-- The screenshot paragraph: the base64 payload together with the raw size
dictionary. When `b64decode` succeeds the size comes from the PNG header
(possibly `None`, with no fallback); when it raises — invalid base64 or a
non-string argument — the requested dimensions are used instead. -/
def extractScreenshot (req : CrawlRequest) (result_data : Json) :
    Except String (Option String × Option (Option Int × Option Int)) :=
  if req.capture_screenshots then do
    let screenshot_data ← result_data.get "screenshot" Json.null
    if screenshot_data.truthy then do
      let b64 ← coerceOptStr screenshot_data
      let size : Option (Option Int × Option Int) :=
        match screenshot_data with
        | .str s =>
          match b64decode s with
          | .ok png =>
            (getPngDimensions png).map (fun wh => (some wh.1, some wh.2))
          | .error _ =>
            some ((req.screenshot_width.map Int.ofNat),
                  (req.screenshot_height.map Int.ofNat))
        | _ =>
          some ((req.screenshot_width.map Int.ofNat),
                (req.screenshot_height.map Int.ofNat))
      pure (b64, size)
    else pure (none, none)
  else pure (none, none)

/-- The body of the `try` block of `_parse_crawl_response`: any `.error` is an
exception caught by its `except` clause. The two early non-success returns
are `.ok` values. -/
def parseAttempt (url : String) (crawl_data : Json) (req : CrawlRequest)
    (crawl_time : Int) (depth : Nat) : Except String CrawlResult := do
  let results ← crawl_data.get "results" (Json.arr [])
  if ¬ results.truthy then
    validateCrawlResult
      { url := url
        success := false
        error_message := some "No results in task response"
        crawl_time_seconds := some crawl_time
        depth := depth }
  else do
    let result_data ← results.index0
    let status_code ← result_data.get "status_code" Json.null
    if ¬ status_code.eqInt 200 then do
      let sc ← coerceOptInt status_code
      validateCrawlResult
        { url := url
          success := false
          error_message := some ("HTTP " ++ status_code.pyStr)
          status_code := sc
          crawl_time_seconds := some crawl_time
          depth := depth }
    else do
      let sc ← coerceOptInt status_code
      let markdown_content ← extractMarkdown result_data
      let cleanedHtml ← extractCleanedHtml req result_data
      let metadata ← extractMetadata req result_data
      let internalLinks ← extractInternalLinks req result_data
      let externalLinks ← extractExternalLinks req result_data
      let screenshotPair ← extractScreenshot req result_data
      let screenshotSize ← coerceSize screenshotPair.2
      let md ← coerceOptStr markdown_content
      validateCrawlResult
        { url := stripSeedSlash url
          success := true
          markdown := md
          cleaned_html := cleanedHtml
          metadata := metadata
          internal_links := internalLinks
          external_links := externalLinks
          screenshot_base64 := screenshotPair.1
          screenshot_size := screenshotSize
          status_code := sc
          crawl_time_seconds := some crawl_time
          depth := depth }

/-- `CrawlingService._parse_crawl_response`: the `try` body above, with every
exception caught into a failed `CrawlResult` whose message names the parse
failure. The catch-all construction sits outside the `try`, so a
`ValidationError` there would propagate (it provably cannot). -/
def parseCrawlResponse (url : String) (crawl_data : Json) (req : CrawlRequest)
    (crawl_time : Int) (depth : Nat) : Except String CrawlResult :=
  match parseAttempt url crawl_data req crawl_time depth with
  | .ok r => .ok r
  | .error e =>
    validateCrawlResult
      { url := stripSeedSlash url
        success := false
        error_message := some ("Failed to parse response: " ++ e)
        crawl_time_seconds := some crawl_time
        depth := depth }

/-! ## Single-page crawl executor (CrawlingService._crawl_single_url) -/

/-- Behaviour of one upstream submit/poll interaction, as observed by
`_crawl_single_url`: any exception from the HTTP client or
`_wait_for_task_completion`, or the completed task payload. -/
inductive UpstreamOutcome where
  | transportError (msg : String)
  | taskFailed (err : String)
  | unknownStatus (s : String)
  | taskTimeout (taskId : String)
  | completed (payload : Json)

/-- `str(e)` for each exception class raised before parsing, with the message
formats of `_wait_for_task_completion`. -/
def upstreamErrorStr : UpstreamOutcome → String
  | .transportError msg => msg
  | .taskFailed err => "Crawl task failed: " ++ err
  | .unknownStatus s => "Unknown task status: " ++ s
  | .taskTimeout taskId => "Task " ++ taskId ++ " timed out after 30 seconds"
  | .completed _ => ""

/-- `CrawlingService._crawl_single_url`: on success the payload is parsed; on
any exception a failed `CrawlResult` is built in the `except` branch (outside
any `try`, so a `ValidationError` there would propagate — possible only if
`str(e)` were empty). `crawl_time` stands for `time.time() - start_time`. -/
def crawlSingleUrl (upstream : UpstreamOutcome) (url : String)
    (req : CrawlRequest) (depth : Nat) (crawl_time : Int) :
    Except String CrawlResult :=
  match upstream with
  | .completed payload => parseCrawlResponse url payload req crawl_time depth
  | e =>
    validateCrawlResult
      { url := stripSeedSlash url
        success := false
        error_message := some (upstreamErrorStr e)
        crawl_time_seconds := some crawl_time
        depth := depth }

/-! ## Crawling cache store (services/crawl_cache.py)

Stored values are `model_dump()` dictionaries of `CrawlResult`s;
`model_dump` / reconstruction is a bijection, so values are modelled as
`CrawlResult` directly. -/

/-- `CrawlingCache`: the main `_cache` map `key -> (data, timestamp)` plus
the `_url_to_keys` reverse index. -/
structure CrawlingCache where
  ttl : Int
  cache : List (CacheKeyData × (CrawlResult × Int)) := []
  urlToKeys : List (List Char × List CacheKeyData) := []

/-- `CrawlingCache.get`: absent keys and entries whose age strictly exceeds
the TTL (with lazy eviction) yield `None`. Returns the value alongside the
possibly-shrunk store. -/
def CrawlingCache.get (c : CrawlingCache) (url : List Char)
    (options : OptionsDict) (now : Int) : Option CrawlResult × CrawlingCache :=
  let key := getKey url options
  match alFind key c.cache with
  | none => (none, c)
  | some (data, timestamp) =>
    if now - timestamp > c.ttl then
      (none, { c with cache := alErase key c.cache })
    else (some data, c)

/-- `CrawlingCache.set`: overwrite the main entry and record the key in the
reverse index. -/
def CrawlingCache.set (c : CrawlingCache) (url : List Char)
    (options : OptionsDict) (data : CrawlResult) (now : Int) : CrawlingCache :=
  let key := getKey url options
  let normalizedUrl := cacheNormalizeUrl url
  let keys :=
    match alFind normalizedUrl c.urlToKeys with
    | some ks => if key ∈ ks then ks else ks ++ [key]
    | none => [key]
  { c with
    cache := alInsert key (data, now) c.cache
    urlToKeys := alInsert normalizedUrl keys c.urlToKeys }

/-- Python aliasing in `_crawl_recursive`: the dict returned by a cache hit
is the stored dict itself, so `cached_result["depth"] = depth` mutates the
stored value in place (the timestamp tuple component is untouched). -/
def CrawlingCache.writeThroughDepth (c : CrawlingCache) (key : CacheKeyData)
    (depth : Nat) : CrawlingCache :=
  { c with
    cache := c.cache.map fun e =>
      if e.1 = key then (e.1, ({ e.2.1 with depth := depth }, e.2.2)) else e }

/-! ## Geocoding cache and service (services/cache.py, services/geocoding.py) -/

/-- The `GeocodingResponse` pydantic model; coordinates are exact rationals
(no claim concerns float rounding). -/
structure GeocodingResponse where
  city : String
  lat : ℚ
  lon : ℚ
  display_name : String
  place_id : Option Int := none
  boundingbox : Option (List ℚ) := none
  timestamp : String
  cached : Bool := false
deriving DecidableEq, Repr

/-- `GeocodingCache._get_key`: `city.lower().strip()`, MD5-hashed; the hash
is modelled by the normalized name itself. -/
def geoKey (city : String) : List Char := pyStrip (pyLower city.data)

/-- `GeocodingCache`: `_cache` maps keys to `(data, timestamp)`. -/
structure GeocodingCache where
  ttl : Int
  cache : List (List Char × (GeocodingResponse × Int)) := []

/-- `GeocodingCache.get`: a hit requires age strictly below the TTL;
otherwise the entry is evicted and the lookup misses. -/
def GeocodingCache.get (c : GeocodingCache) (city : String) (now : Int) :
    Option GeocodingResponse × GeocodingCache :=
  let key := geoKey city
  match alFind key c.cache with
  | some (data, timestamp) =>
    if now - timestamp < c.ttl then (some data, c)
    else (none, { c with cache := alErase key c.cache })
  | none => (none, c)

/-- `GeocodingCache.set`. -/
def GeocodingCache.set (c : GeocodingCache) (city : String)
    (data : GeocodingResponse) (now : Int) : GeocodingCache :=
  { c with cache := alInsert (geoKey city) (data, now) c.cache }

/-- One raw Nominatim candidate, already field-converted (`float(...)` /
`int(...)` conversions are assumed to succeed; a bounding-box member that
fails `float()` is `none`, sending the whole box to `None`). -/
structure NominatimResult where
  lat : ℚ
  lon : ℚ
  display_name : Option String := none
  place_id : Option Int := none
  boundingbox : Option (List (Option ℚ)) := none

/-- Behaviour of the upstream Nominatim call as observed by `geocode_city`:
an HTTP status error, a timeout, any other exception, or a JSON result
list. -/
inductive GeoUpstream where
  | httpStatusError (code : Int)
  | timeout
  | otherError (msg : String)
  | results (rs : List NominatimResult)

/-- `GeocodingService.geocode_city`: cache hit returns a fresh response
object with `cached = True` (the store is untouched); a miss calls upstream,
builds a `cached = False` response, stores its dump, and returns it.
Upstream failures are re-raised as exceptions (`.error`). `nowIso` stands
for `datetime.now(timezone.utc).isoformat()`. -/
def geocodeCity (cache : GeocodingCache) (city : String)
    (upstream : GeoUpstream) (now : Int) (nowIso : String) :
    Except String (Option GeocodingResponse) × GeocodingCache :=
  let (hit, cache1) := cache.get city now
  match hit with
  | some cached =>
    -- response = GeocodingResponse(**cached); response.cached = True
    (Except.ok (some { cached with cached := true }), cache1)
  | none =>
    match upstream with
    | .httpStatusError code =>
      (Except.error ("Nominatim API HTTP error: " ++ toString code), cache1)
    | .timeout => (Except.error "Nominatim API timeout", cache1)
    | .otherError msg => (Except.error msg, cache1)
    | .results rs =>
      match rs with
      | [] => (Except.ok none, cache1)
      | r :: _ =>
        let boundingbox :=
          match r.boundingbox with
          | some xs =>
            if xs.all Option.isSome then some (xs.filterMap id) else none
          | none => none
        let resp : GeocodingResponse :=
          { city := city
            lat := r.lat
            lon := r.lon
            display_name := r.display_name.getD city
            place_id := r.place_id
            boundingbox := boundingbox
            timestamp := nowIso
            cached := false }
        (Except.ok (some resp), cache1.set city resp now)

/-! ## Rate limiter (services/rate_limiter.py) -/

/-- `RateLimiter` state: the configured window and the last recorded request
time. Clock readings are exact rationals (`time.time()` floats). -/
structure RateLimiter where
  max_requests : Nat := 1
  time_window : ℚ := 1
  last_request_time : Option ℚ := none

/-- The sleep performed by `acquire()` when entered at clock reading `now`:
positive only when the previous request was less than `time_window` ago. -/
def RateLimiter.sleepFor (rl : RateLimiter) (now : ℚ) : ℚ :=
  match rl.last_request_time with
  | some last =>
    if now - last < rl.time_window then rl.time_window - (now - last) else 0
  | none => 0

/-- The state update at the end of `acquire()`: `last_request_time` is
unconditionally set to the second `time.time()` reading (taken after the
sleep). -/
def RateLimiter.acquireUpdate (rl : RateLimiter) (now2 : ℚ) : RateLimiter :=
  { rl with last_request_time := some now2 }

/-- A well-formed observation of `n` sequential `acquire()` calls: each call
reads the clock at `now1`, sleeps `sleepFor now1`, reads the clock again at
`now2 ≥ now1 + sleep`, and the next call starts no earlier than `now2`
(sequentiality; the lock serializes the bodies). -/
def SeqAcquires (rl : RateLimiter) (lowerBound : ℚ) : List (ℚ × ℚ) → Prop
  | [] => True
  | (now1, now2) :: rest =>
    lowerBound ≤ now1 ∧ now1 + rl.sleepFor now1 ≤ now2 ∧
      SeqAcquires (rl.acquireUpdate now2) now2 rest

/-! ## Traversal URL normalizer (CrawlingService._normalize_url) -/

/-- `CrawlingService._normalize_url`: lowercase scheme and netloc, strip the
fragment, drop trailing slashes unless the path is empty or root. -/
def serviceNormalizeUrl (checks : StdlibChecks) (url : List Char) :
    Except String (List Char) := do
  let parsed ← urlparse checks [] url
  let path := parsed.path
  let normalizedPath := if path = [] ∨ path = ['/'] then [] else rstripSlash path
  pure (urlunparse
    { scheme := pyLower parsed.scheme
      netloc := pyLower parsed.netloc
      path := normalizedPath
      params := parsed.params
      query := parsed.query
      fragment := [] })

/-- String-level wrapper of the traversal normalizer. -/
def normalizeUrlStr (checks : StdlibChecks) (url : String) :
    Except String String := do
  let r ← serviceNormalizeUrl checks url.data
  pure (String.mk r)

/-- `f"{parsed.scheme}://{parsed.netloc}"` for a seed or external link. -/
def originDomain (checks : StdlibChecks) (url : String) :
    Except String String := do
  let p ← urlparse checks [] url.data
  pure (String.mk (p.scheme ++ ':' :: '/' :: '/' :: p.netloc))

/-- `urlparse(x).netloc`. -/
def netlocOf (checks : StdlibChecks) (url : String) :
    Except String (List Char) := do
  let p ← urlparse checks [] url.data
  pure p.netloc

/-! ## Recursive crawl orchestrator (CrawlingService._crawl_recursive)

The upstream behaviour is a function `upstream : String → UpstreamOutcome`
(per crawled URL) and `elapsed : String → Int` gives each call's measured
duration; the cache timestamp clock `now` is held fixed across one
orchestration (no claim depends on intra-run clock advance). -/

/-- A frontier queue entry `(url, normalized_url, depth, base_domain)`. -/
structure FrontierItem where
  url : String
  normalized : String
  depth : Nat
  baseDomain : String

/-- The loop state of `_crawl_recursive`. -/
structure CrawlState where
  results : List CrawlResult := []
  cachedCount : Nat := 0
  crawled : List String := []
  queue : List FrontierItem := []
  cache : CrawlingCache

/-- Truthiness of a links field read from a result or cached dict (`None`
and the empty list are falsy). -/
def truthyLinks : Option (List String) → Bool
  | some (_ :: _) => true
  | _ => false

/-- The internal-link enqueueing loop shared verbatim by the cache-hit and
fresh-crawl branches: resolve against the current URL, normalize, skip
already-crawled, keep same-host links only. -/
def expandInternalLinks (checks : StdlibChecks) (crawled : List String)
    (url baseDomain : String) (depth : Nat) :
    List String → Except String (List FrontierItem)
  | [] => Except.ok []
  | link :: links => do
    let absoluteUrl ← (urljoin checks url.data link.data).map String.mk
    let normalizedLink ← normalizeUrlStr checks absoluteUrl
    if normalizedLink ∈ crawled then
      expandInternalLinks checks crawled url baseDomain depth links
    else do
      let linkNetloc ← netlocOf checks absoluteUrl
      let baseNetloc ← netlocOf checks baseDomain
      let tail ← expandInternalLinks checks crawled url baseDomain depth links
      if linkNetloc = baseNetloc then
        Except.ok (⟨absoluteUrl, normalizedLink, depth + 1, baseDomain⟩ :: tail)
      else Except.ok tail

/-- The external-link enqueueing loop (hrefs are already absolute): keep
links whose host differs from the origin, re-rooting the branch at the
external page's own domain. -/
def expandExternalLinks (checks : StdlibChecks) (crawled : List String)
    (baseDomain : String) (depth : Nat) :
    List String → Except String (List FrontierItem)
  | [] => Except.ok []
  | link :: links => do
    let normalizedLink ← normalizeUrlStr checks link
    if normalizedLink ∈ crawled then
      expandExternalLinks checks crawled baseDomain depth links
    else do
      let p ← urlparse checks [] link.data
      let baseNetloc ← netlocOf checks baseDomain
      let tail ← expandExternalLinks checks crawled baseDomain depth links
      if p.netloc ≠ baseNetloc then
        let externalDomain := String.mk (p.scheme ++ ':' :: '/' :: '/' :: p.netloc)
        Except.ok (⟨link, normalizedLink, depth + 1, externalDomain⟩ :: tail)
      else Except.ok tail

/-- One iteration of the `while` body of `_crawl_recursive` (entered only
under the loop guard): pop, deduplicate, consult the cache, crawl on a miss,
and enqueue discovered links subject to the depth and page budgets. -/
def crawlStep (checks : StdlibChecks) (req : CrawlRequest)
    (upstream : String → UpstreamOutcome) (elapsed : String → Int) (now : Int)
    (st : CrawlState) : Except String CrawlState :=
  match st.queue with
  | [] => Except.ok st
  | item :: rest =>
    -- skip if already crawled (normalized URL)
    if item.normalized ∈ st.crawled then Except.ok { st with queue := rest }
    else
      let crawled1 := st.crawled ++ [item.normalized]
      let options := requestToOptions req
      match (if req.cache_mode ≠ CacheMode.bypass then
               st.cache.get item.url.data options now
             else (none, st.cache)) with
      | (some cachedResult, cache1) =>
        -- cached_result["depth"] = depth: mutates the aliased stored dict
        let updated := { cachedResult with depth := item.depth }
        let cache2 := cache1.writeThroughDepth (getKey item.url.data options) item.depth
        match validateCrawlResult updated with
        | .error e => Except.error e
        | .ok r =>
          let results1 := st.results ++ [r]
          if item.depth < req.max_depth - 1 ∧ results1.length < req.max_pages then do
            let ilinks ←
              if req.follow_internal_links ∧ truthyLinks updated.internal_links then
                expandInternalLinks checks crawled1 item.url item.baseDomain
                  item.depth (updated.internal_links.getD [])
              else pure []
            let elinks ←
              if req.follow_external_links ∧ truthyLinks updated.external_links then
                expandExternalLinks checks crawled1 item.baseDomain
                  item.depth (updated.external_links.getD [])
              else pure []
            Except.ok { results := results1
                        cachedCount := st.cachedCount + 1
                        crawled := crawled1
                        queue := rest ++ ilinks ++ elinks
                        cache := cache2 }
          else
            Except.ok { results := results1
                        cachedCount := st.cachedCount + 1
                        crawled := crawled1
                        queue := rest
                        cache := cache2 }
      | (none, cache1) =>
        match crawlSingleUrl (upstream item.url) item.url req item.depth
            (elapsed item.url) with
        | .error e => Except.error e
        | .ok result =>
          let results1 := st.results ++ [result]
          let cache2 :=
            if req.cache_mode ≠ CacheMode.disabled ∧ result.success then
              cache1.set item.url.data options result now
            else cache1
          if result.success ∧ item.depth < req.max_depth - 1 ∧
              results1.length < req.max_pages then do
            let ilinks ←
              if req.follow_internal_links ∧ truthyLinks result.internal_links then
                expandInternalLinks checks crawled1 item.url item.baseDomain
                  item.depth (result.internal_links.getD [])
              else pure []
            let elinks ←
              if req.follow_external_links ∧ truthyLinks result.external_links then
                expandExternalLinks checks crawled1 item.baseDomain
                  item.depth (result.external_links.getD [])
              else pure []
            Except.ok { results := results1
                        cachedCount := st.cachedCount
                        crawled := crawled1
                        queue := rest ++ ilinks ++ elinks
                        cache := cache2 }
          else
            Except.ok { results := results1
                        cachedCount := st.cachedCount
                        crawled := crawled1
                        queue := rest
                        cache := cache2 }

/-- The `while to_crawl and len(results) < max_pages` loop, fuel-indexed:
the claims are proved for every fuel value, hence for the terminating run. -/
def crawlLoop (checks : StdlibChecks) (req : CrawlRequest)
    (upstream : String → UpstreamOutcome) (elapsed : String → Int) (now : Int) :
    Nat → CrawlState → Except String CrawlState
  | 0, st => Except.ok st
  | fuel + 1, st =>
    if ¬ st.queue.isEmpty ∧ st.results.length < req.max_pages then
      match crawlStep checks req upstream elapsed now st with
      | .error e => Except.error e
      | .ok st1 => crawlLoop checks req upstream elapsed now fuel st1
    else Except.ok st

/-- Seed initialization of `_crawl_recursive`: every seed is enqueued at
depth 0 with its own origin domain. -/
def initCrawlState (checks : StdlibChecks) (req : CrawlRequest)
    (cache : CrawlingCache) : Except String CrawlState := do
  let queue ← req.urls.foldlM
    (fun acc url => do
      let normalizedUrl ← normalizeUrlStr checks url
      let domain ← originDomain checks url
      pure (acc ++ [FrontierItem.mk url normalizedUrl 0 domain]))
    []
  pure { results := [], cachedCount := 0, crawled := [], queue := queue
         cache := cache }

/-- `CrawlingService._crawl_recursive` as a fuel-indexed run from the seeded
state. -/
def crawlRecursive (checks : StdlibChecks) (req : CrawlRequest)
    (upstream : String → UpstreamOutcome) (elapsed : String → Int) (now : Int)
    (cache : CrawlingCache) (fuel : Nat) : Except String CrawlState := do
  let st ← initCrawlState checks req cache
  crawlLoop checks req upstream elapsed now fuel st

/-! ## Claim C2: cache key sensitivity -/

/-- C2 counterexample: two pre-validated crawl requests that differ only in
`screenshot_width` but have `capture_screenshots = False` produce the SAME
cache key, refuting the claim that any pair differing only in
`screenshot_width` gets different keys. -/
theorem C2_counterexample :
    (CrawlRequest.mk ["https://example.com"] false false false false false 1 10
        false (some 320) (some 1080) (some 2) .enabled).Valid ∧
    (CrawlRequest.mk ["https://example.com"] false false false false false 1 10
        false (some 1920) (some 1080) (some 2) .enabled).Valid ∧
    (CrawlRequest.mk ["https://example.com"] false false false false false 1 10
        false (some 320) (some 1080) (some 2) .enabled).screenshot_width ≠
      (CrawlRequest.mk ["https://example.com"] false false false false false 1 10
        false (some 1920) (some 1080) (some 2) .enabled).screenshot_width ∧
    getKey "https://example.com".data
        (requestToOptions
          (CrawlRequest.mk ["https://example.com"] false false false false false
            1 10 false (some 320) (some 1080) (some 2) .enabled)) =
      getKey "https://example.com".data
        (requestToOptions
          (CrawlRequest.mk ["https://example.com"] false false false false false
            1 10 false (some 1920) (some 1080) (some 2) .enabled)) := by
  refine ⟨by decide, by decide, by decide, ?_⟩
  rfl

/-- C2 (amended): for every URL, two requests differing only in
`screenshot_width` derive different cache keys PROVIDED screenshots are
enabled; and changing any combination of the traversal-control fields
(`follow_internal_links`, `follow_external_links`, `max_depth`, `max_pages`,
`cache_mode`) never changes the cache key. -/
theorem C2_cache_key_sensitivity :
    ∀ (url : List Char) (r1 r2 : CrawlRequest),
      (r2 = { r1 with screenshot_width := r2.screenshot_width } →
        r1.capture_screenshots = true →
        r1.screenshot_width ≠ r2.screenshot_width →
        getKey url (requestToOptions r1) ≠ getKey url (requestToOptions r2)) ∧
      (∀ (fi fe : Bool) (md mp : Nat) (cm : CacheMode),
        getKey url
            (requestToOptions
              { r1 with
                follow_internal_links := fi
                follow_external_links := fe
                max_depth := md
                max_pages := mp
                cache_mode := cm }) =
          getKey url (requestToOptions r1)) := by
  intro url r1 r2
  constructor
  · intro h2 hc hw heq
    apply hw
    have hopts := congrArg CacheKeyData.options heq
    have hss := congrArg CacheRelevantOptions.screenshot hopts
    rw [h2] at hss
    simp only [getKey, requestToOptions, hc, if_pos] at hss
    simpa [optGetWithDefault] using congrArg (Option.map ScreenshotKeyOpts.width) hss
  · intro fi fe md mp cm
    rfl

/-- C2 witness: the amended sensitivity theorem applied at concrete
requests: enabling screenshots makes 320 vs 1920 widths produce distinct
keys, while rewriting every traversal-control field leaves the key
unchanged. -/
theorem C2_witness :
    getKey "https://example.com".data
        (requestToOptions
          (CrawlRequest.mk ["https://example.com"] false false false false false
            1 10 true (some 320) (some 1080) (some 2) .enabled)) ≠
      getKey "https://example.com".data
        (requestToOptions
          (CrawlRequest.mk ["https://example.com"] false false false false false
            1 10 true (some 1920) (some 1080) (some 2) .enabled)) ∧
    getKey "https://example.com".data
        (requestToOptions
          { CrawlRequest.mk ["https://example.com"] false false false false false
              1 10 true (some 320) (some 1080) (some 2) .enabled with
            follow_internal_links := true
            follow_external_links := true
            max_depth := 4
            max_pages := 7
            cache_mode := .bypass }) =
      getKey "https://example.com".data
        (requestToOptions
          (CrawlRequest.mk ["https://example.com"] false false false false false
            1 10 true (some 320) (some 1080) (some 2) .enabled)) := by
  constructor
  · exact (C2_cache_key_sensitivity "https://example.com".data
      (CrawlRequest.mk ["https://example.com"] false false false false false
        1 10 true (some 320) (some 1080) (some 2) .enabled)
      (CrawlRequest.mk ["https://example.com"] false false false false false
        1 10 true (some 1920) (some 1080) (some 2) .enabled)).1
      rfl rfl (by decide)
  · exact (C2_cache_key_sensitivity "https://example.com".data
      (CrawlRequest.mk ["https://example.com"] false false false false false
        1 10 true (some 320) (some 1080) (some 2) .enabled)
      (CrawlRequest.mk ["https://example.com"] false false false false false
        1 10 true (some 320) (some 1080) (some 2) .enabled)).2
      true true 4 7 .bypass

/-! ## Claim C4: lazy TTL expiry on read -/

/-- A key absent from the key column is not found. -/
theorem alFind_eq_none_of_not_mem {κ α : Type} [DecidableEq κ] (k : κ)
    (l : List (κ × α)) (h : k ∉ l.map Prod.fst) : alFind k l = none := by
  induction l with
  | nil => rfl
  | cons hd tl ih =>
    obtain ⟨k0, v0⟩ := hd
    simp only [List.map_cons, List.mem_cons] at h
    push_neg at h
    simp only [alFind, if_neg (fun he : k0 = k => h.1 he.symm)]
    exact ih h.2

/-- Erasing a key from a duplicate-free association list removes it from
lookup. -/
theorem alFind_alErase_self {κ α : Type} [DecidableEq κ] (k : κ)
    (l : List (κ × α)) (h : (l.map Prod.fst).Nodup) :
    alFind k (alErase k l) = none := by
  induction l with
  | nil => rfl
  | cons hd tl ih =>
    obtain ⟨k0, v0⟩ := hd
    simp only [List.map_cons, List.nodup_cons] at h
    by_cases he : k0 = k
    · simpa [alErase, he] using alFind_eq_none_of_not_mem k tl (he ▸ h.1)
    · simpa [alErase, he, alFind] using ih h.2

/-- C4 counterexample: a crawling-cache entry whose age equals the TTL
exactly is still served (and kept), whereas the claim requires `age ≥ TTL`
to read as absent with eviction, for both stores. -/
theorem C4_counterexample :
    ((CrawlingCache.mk 100
          [(getKey "https://x.com".data
              (requestToOptions { urls := ["https://x.com"] }),
            ({ url := "https://x.com", success := true, markdown := some "m" },
             0))] []).get
        "https://x.com".data (requestToOptions { urls := ["https://x.com"] })
        100).1.map (fun r => r.markdown) = some (some "m") ∧
    ((CrawlingCache.mk 100
          [(getKey "https://x.com".data
              (requestToOptions { urls := ["https://x.com"] }),
            ({ url := "https://x.com", success := true, markdown := some "m" },
             0))] []).get
        "https://x.com".data (requestToOptions { urls := ["https://x.com"] })
        100).2.cache.length = 1 := by
  exact ⟨rfl, rfl⟩

/-- C4 (amended): the geocoding store treats `age ≥ TTL` as absent with
eviction and serves strictly younger entries, exactly as claimed; the
crawling store evicts only when `age > TTL` strictly, serving entries whose
age equals the TTL. -/
theorem C4_ttl_expiry :
    (∀ (c : GeocodingCache) (city : String) (now ts : Int)
        (v : GeocodingResponse),
      (c.cache.map Prod.fst).Nodup →
      alFind (geoKey city) c.cache = some (v, ts) →
      (c.ttl ≤ now - ts →
        (c.get city now).1 = none ∧
        alFind (geoKey city) (c.get city now).2.cache = none) ∧
      (now - ts < c.ttl →
        (c.get city now).1 = some v ∧ (c.get city now).2 = c)) ∧
    (∀ (c : CrawlingCache) (url : List Char) (opts : OptionsDict)
        (now ts : Int) (v : CrawlResult),
      (c.cache.map Prod.fst).Nodup →
      alFind (getKey url opts) c.cache = some (v, ts) →
      (c.ttl < now - ts →
        (c.get url opts now).1 = none ∧
        alFind (getKey url opts) (c.get url opts now).2.cache = none) ∧
      (now - ts ≤ c.ttl →
        (c.get url opts now).1 = some v ∧ (c.get url opts now).2 = c)) := by
  constructor
  · intro c city now ts v hnd hfind
    simp only [GeocodingCache.get, hfind]
    constructor
    · intro hage
      rw [if_neg (by omega)]
      exact ⟨rfl, alFind_alErase_self _ _ hnd⟩
    · intro hage
      rw [if_pos hage]
      exact ⟨rfl, rfl⟩
  · intro c url opts now ts v hnd hfind
    simp only [CrawlingCache.get, hfind]
    constructor
    · intro hage
      rw [if_pos (by omega : now - ts > c.ttl)]
      exact ⟨rfl, alFind_alErase_self _ _ hnd⟩
    · intro hage
      rw [if_neg (by omega : ¬ now - ts > c.ttl)]
      exact ⟨rfl, rfl⟩

/-- C4 witness: both stores evaluated at concrete entries, on both sides of
each expiry boundary. -/
theorem C4_witness :
    ((GeocodingCache.mk 10
        [(geoKey "London",
          ({ city := "London", lat := 1, lon := 2, display_name := "L"
             timestamp := "t" }, 0))]).get "London" 10).1 = none ∧
    ((GeocodingCache.mk 10
        [(geoKey "London",
          ({ city := "London", lat := 1, lon := 2, display_name := "L"
             timestamp := "t" }, 0))]).get "London" 9).1 =
      some { city := "London", lat := 1, lon := 2, display_name := "L"
             timestamp := "t" } ∧
    ((CrawlingCache.mk 10
        [(getKey "https://x.com".data
            (requestToOptions { urls := ["https://x.com"] }),
          ({ url := "https://x.com", success := true, markdown := some "m" },
           0))] []).get "https://x.com".data
        (requestToOptions { urls := ["https://x.com"] }) 11).1 = none := by
  refine ⟨?_, ?_, ?_⟩
  · exact (((C4_ttl_expiry.1 (GeocodingCache.mk 10
      [(geoKey "London",
        ({ city := "London", lat := 1, lon := 2, display_name := "L"
           timestamp := "t" }, 0))]) "London" 10 0
      { city := "London", lat := 1, lon := 2, display_name := "L"
        timestamp := "t" } (by decide) rfl).1) (by decide)).1
  · exact (((C4_ttl_expiry.1 (GeocodingCache.mk 10
      [(geoKey "London",
        ({ city := "London", lat := 1, lon := 2, display_name := "L"
           timestamp := "t" }, 0))]) "London" 9 0
      { city := "London", lat := 1, lon := 2, display_name := "L"
        timestamp := "t" } (by decide) rfl).2) (by decide)).1
  · exact (((C4_ttl_expiry.2 (CrawlingCache.mk 10
      [(getKey "https://x.com".data
          (requestToOptions { urls := ["https://x.com"] }),
        ({ url := "https://x.com", success := true, markdown := some "m" }, 0))]
      []) "https://x.com".data
      (requestToOptions { urls := ["https://x.com"] }) 11 0
      { url := "https://x.com", success := true, markdown := some "m" }
      (by decide) rfl).1) (by decide)).1

/-! ## Claim C8: rate limiter algorithm and lower bound -/

/-- The final `time.time()` reading of an acquire trace (`d` when the trace
is empty). -/
def lastClock (d : ℚ) : List (ℚ × ℚ) → ℚ
  | [] => d
  | (_, n2) :: rest => lastClock n2 rest

/-- Once `last_request_time` is set to `l`, every further well-formed
acquire pushes the final clock reading at least one window beyond `l` per
call. -/
theorem seqAcquires_lower_bound_aux :
    ∀ (trace : List (ℚ × ℚ)) (rl : RateLimiter) (l lb : ℚ),
      rl.last_request_time = some l →
      SeqAcquires rl lb trace →
      l + trace.length * rl.time_window ≤ lastClock l trace := by
  intro trace
  induction trace with
  | nil => intro rl l lb _ _; simp [lastClock]
  | cons hd rest ih =>
    obtain ⟨n1, n2⟩ := hd
    intro rl l lb hlast hseq
    obtain ⟨hlb, hsleep, hrest⟩ := hseq
    have hstep : l + rl.time_window ≤ n2 := by
      simp only [RateLimiter.sleepFor, hlast] at hsleep
      by_cases hcase : n1 - l < rl.time_window
      · rw [if_pos hcase] at hsleep; linarith
      · rw [if_neg hcase] at hsleep
        push_neg at hcase
        linarith
    have hih := ih (rl.acquireUpdate n2) n2 n2 rfl hrest
    simp only [RateLimiter.acquireUpdate] at hih
    simp only [lastClock, List.length_cons]
    push_cast
    linarith

/-- C8: on `acquire`, a call arriving within the window of the previous
request sleeps exactly `timeWindow - (now - last)` (and zero otherwise);
`last_request_time` is then unconditionally set to the post-sleep clock
reading; consequently `N` sequential acquires span at least
`(N-1) × timeWindow` of wall-clock time between the first clock read and the
last. -/
theorem C8_rate_limiter :
    (∀ (rl : RateLimiter) (now last : ℚ),
      rl.last_request_time = some last →
      (now - last < rl.time_window →
        rl.sleepFor now = rl.time_window - (now - last)) ∧
      (¬ now - last < rl.time_window → rl.sleepFor now = 0)) ∧
    (∀ (rl : RateLimiter) (now2 : ℚ),
      (rl.acquireUpdate now2).last_request_time = some now2) ∧
    (∀ (T lb n1 n2 : ℚ) (rest : List (ℚ × ℚ)),
      SeqAcquires { time_window := T, last_request_time := none } lb
        ((n1, n2) :: rest) →
      n1 + rest.length * T ≤ lastClock n2 rest) := by
  refine ⟨?_, ?_, ?_⟩
  · intro rl now last hlast
    constructor
    · intro h; simp only [RateLimiter.sleepFor, hlast, if_pos h]
    · intro h; simp only [RateLimiter.sleepFor, hlast, if_neg h]
  · intro rl now2; rfl
  · intro T lb n1 n2 rest hseq
    obtain ⟨hlb, hsleep, hrest⟩ := hseq
    have h12 : n1 ≤ n2 := by
      simp only [RateLimiter.sleepFor] at hsleep
      linarith
    have haux := seqAcquires_lower_bound_aux rest
      (RateLimiter.acquireUpdate { time_window := T, last_request_time := none } n2)
      n2 n2 rfl hrest
    simp only [RateLimiter.acquireUpdate] at haux
    linarith

/-- C8 witness: three sequential acquires with a window of 1, on the trace
`[(0,0), (0,1), (1,2)]` — total elapsed 2 ≥ (3-1) × 1. -/
theorem C8_witness :
    (0 : ℚ) + (([((0 : ℚ), (1 : ℚ)), ((1 : ℚ), (2 : ℚ))] : List (ℚ × ℚ)).length : ℚ) * 1 ≤
      lastClock 0 [((0 : ℚ), (1 : ℚ)), ((1 : ℚ), (2 : ℚ))] := by
  refine C8_rate_limiter.2.2 1 0 0 0 [(0, 1), (1, 2)] ?_
  norm_num [SeqAcquires, RateLimiter.sleepFor, RateLimiter.acquireUpdate]

/-! ## Claim C10: the geocoding cache stores only `cached = false` entries -/

/-- Erasure only removes entries. -/
theorem mem_of_mem_alErase {κ α : Type} [DecidableEq κ] (k : κ)
    (l : List (κ × α)) : ∀ x ∈ alErase k l, x ∈ l := by
  induction l with
  | nil => intro x hx; exact absurd hx (List.not_mem_nil x)
  | cons hd tl ih =>
    intro x hx
    by_cases he : hd.1 = k
    · obtain ⟨k0, v0⟩ := hd
      simp only [alErase, if_pos he] at hx
      exact List.mem_cons_of_mem _ hx
    · obtain ⟨k0, v0⟩ := hd
      simp only [alErase, if_neg he, List.mem_cons] at hx
      rcases hx with h | h
      · exact h ▸ List.mem_cons_self _ _
      · exact List.mem_cons_of_mem _ (ih x h)

/-- Every member of an insertion is an old member or the inserted pair. -/
theorem mem_alInsert {κ α : Type} [DecidableEq κ] (k : κ) (v : α)
    (l : List (κ × α)) : ∀ x ∈ alInsert k v l, x ∈ l ∨ x = (k, v) := by
  induction l with
  | nil => intro x hx; simp only [alInsert, List.mem_singleton] at hx; exact Or.inr hx
  | cons hd tl ih =>
    intro x hx
    obtain ⟨k0, v0⟩ := hd
    by_cases he : k0 = k
    · simp only [alInsert, if_pos he, List.mem_cons] at hx
      rcases hx with h | h
      · exact Or.inr (by rw [h, he])
      · exact Or.inl (List.mem_cons_of_mem _ h)
    · simp only [alInsert, if_neg he, List.mem_cons] at hx
      rcases hx with h | h
      · exact Or.inl (h ▸ List.mem_cons_self _ _)
      · rcases ih x h with h' | h'
        · exact Or.inl (List.mem_cons_of_mem _ h')
        · exact Or.inr h'

/-- A read never adds entries to the geocoding store. -/
theorem geoGet_mem_subset (c : GeocodingCache) (city : String) (now : Int) :
    ∀ e ∈ (c.get city now).2.cache, e ∈ c.cache := by
  intro e
  unfold GeocodingCache.get
  cases hfind : alFind (geoKey city) c.cache with
  | none => simp only [hfind]; exact fun h => h
  | some dt =>
    obtain ⟨data, ts⟩ := dt
    simp only [hfind]
    by_cases hfresh : now - ts < c.ttl
    · rw [if_pos hfresh]; exact fun h => h
    · rw [if_neg hfresh]; exact fun h => mem_of_mem_alErase _ _ e h

/-- A geocoding cache hit does not modify the store. -/
theorem geoGet_snd_of_hit (c : GeocodingCache) (city : String) (now : Int)
    (v : GeocodingResponse) :
    (c.get city now).1 = some v → (c.get city now).2 = c := by
  unfold GeocodingCache.get
  cases hfind : alFind (geoKey city) c.cache with
  | none => simp [hfind]
  | some dt =>
    obtain ⟨data, ts⟩ := dt
    by_cases hfresh : now - ts < c.ttl
    · simp [hfind, hfresh]
    · simp [hfind, hfresh]

/-- C10: every entry ever stored in the geocoding cache carries
`cached = false`; a `geocode_city` cache hit builds a fresh response with
`cached = true` while leaving the store byte-identical, so later hits for
the same city keep reporting `cached = true` against an unchanged store. -/
theorem C10_geocoding_cached_flag :
    ∀ (cache : GeocodingCache) (city : String) (up : GeoUpstream) (now : Int)
      (iso : String),
      ((∀ e ∈ cache.cache, e.2.1.cached = false) →
        ∀ e ∈ (geocodeCity cache city up now iso).2.cache,
          e.2.1.cached = false) ∧
      (∀ v, (cache.get city now).1 = some v →
        (geocodeCity cache city up now iso).2 = cache ∧
        (geocodeCity cache city up now iso).1 =
          Except.ok (some { v with cached := true })) := by
  intro cache city up now iso
  have hsub := geoGet_mem_subset cache city now
  constructor
  · intro hinv e he
    unfold geocodeCity at he
    revert he
    cases hget : cache.get city now with
    | mk hit cache1 =>
      have hsub1 : ∀ e ∈ cache1.cache, e ∈ cache.cache := by
        intro e he; exact hsub e (by rw [hget] at *; exact he)
      cases hit with
      | some cachedv => intro he; exact hinv e (hsub1 e he)
      | none =>
        cases up with
        | httpStatusError code => intro he; exact hinv e (hsub1 e he)
        | timeout => intro he; exact hinv e (hsub1 e he)
        | otherError msg => intro he; exact hinv e (hsub1 e he)
        | results rs =>
          cases rs with
          | nil => intro he; exact hinv e (hsub1 e he)
          | cons r rest =>
            intro he
            simp only [GeocodingCache.set] at he
            rcases mem_alInsert _ _ _ e he with h | h
            · exact hinv e (hsub1 e h)
            · rw [h]
  · intro v hv
    unfold geocodeCity
    cases hget : cache.get city now with
    | mk hit cache1 =>
      rw [hget] at hv
      cases hit with
      | some cachedv =>
        have hveq : cachedv = v := by simpa using hv
        have h2 : cache1 = cache := by
          have := geoGet_snd_of_hit cache city now v (by rw [hget]; exact hv)
          rw [hget] at this; exact this
        rw [hveq, h2]
        exact ⟨rfl, rfl⟩
      | none => exact absurd hv (by simp)

/-- C10 witness: a concrete store holding a `cached = false` entry: the
invariant is preserved by a fresh-result call, and a hit returns the entry
with `cached = true` leaving the store unchanged. -/
theorem C10_witness :
    (∀ e ∈ (geocodeCity
        (GeocodingCache.mk 10
          [(geoKey "Paris",
            ({ city := "Paris", lat := 3, lon := 4, display_name := "P"
               timestamp := "t" }, 0))])
        "Lyon"
        (GeoUpstream.results [{ lat := 5, lon := 6 }]) 1 "t2").2.cache,
      e.2.1.cached = false) ∧
    (geocodeCity
        (GeocodingCache.mk 10
          [(geoKey "Paris",
            ({ city := "Paris", lat := 3, lon := 4, display_name := "P"
               timestamp := "t" }, 0))])
        "Paris" (GeoUpstream.results []) 1 "t2").1 =
      Except.ok (some { city := "Paris", lat := 3, lon := 4
                        display_name := "P", timestamp := "t"
                        cached := true }) := by
  constructor
  · exact (C10_geocoding_cached_flag
      (GeocodingCache.mk 10
        [(geoKey "Paris",
          ({ city := "Paris", lat := 3, lon := 4, display_name := "P"
             timestamp := "t" }, 0))])
      "Lyon" (GeoUpstream.results [{ lat := 5, lon := 6 }]) 1 "t2").1
      (by intro e he; simp only [List.mem_singleton] at he; rw [he])
  · exact ((C10_geocoding_cached_flag
      (GeocodingCache.mk 10
        [(geoKey "Paris",
          ({ city := "Paris", lat := 3, lon := 4, display_name := "P"
             timestamp := "t" }, 0))])
      "Paris" (GeoUpstream.results []) 1 "t2").2
      { city := "Paris", lat := 3, lon := 4, display_name := "P"
        timestamp := "t" } (by decide)).2

/-! ## Claim C5: the single-page executor never raises -/

/-- Unfolding a truthy optional string. -/
theorem truthyOptStr_exists (o : Option String) (h : truthyOptStr o = true) :
    ∃ m, o = some m ∧ m ≠ "" := by
  cases o with
  | none => simp [truthyOptStr] at h
  | some s => exact ⟨s, rfl, by simpa [truthyOptStr] using h⟩

/-- Inversion of the pydantic model validator: a successfully constructed
`CrawlResult` is returned unchanged and satisfies the success/error/markdown
and screenshot consistency constraints. -/
theorem validateCrawlResult_ok (r r' : CrawlResult)
    (h : validateCrawlResult r = Except.ok r') :
    r' = r ∧ (r.success = false → truthyOptStr r.error_message = true) ∧
      (r.success = true → truthyOptStr r.markdown = true) ∧
      ¬ (truthyOptStr r.screenshot_base64 = true ∧ r.screenshot_size = none) := by
  unfold validateCrawlResult at h
  simp only [bind, Except.bind, pure] at h
  by_cases hs : r.success = true
  · by_cases hmd : truthyOptStr r.markdown = true
    · by_cases hsc : truthyOptStr r.screenshot_base64 = true ∧ r.screenshot_size.isNone = true
      · simp [hs, hmd, hsc, Except.pure] at h
      · simp only [hs, hmd, if_true, not_true_eq_false, if_false, if_neg hsc] at h
        refine ⟨by injection h with h; exact h.symm, fun hf => absurd hs (by simp [hf]),
          fun _ => hmd, fun hcon => hsc ⟨hcon.1, by simp [hcon.2]⟩⟩
    · simp [hs, hmd] at h
  · have hs' : r.success = false := by simpa using hs
    by_cases herr : truthyOptStr r.error_message = true
    · by_cases hsc : truthyOptStr r.screenshot_base64 = true ∧ r.screenshot_size.isNone = true
      · simp [hs', herr, hsc, Except.pure] at h
      · simp only [hs', herr, Bool.false_eq_true, if_false, not_true_eq_false, if_true,
          if_neg hsc] at h
        refine ⟨by injection h with h; exact h.symm, fun _ => herr,
          fun ht => absurd ht (by simp [hs']),
          fun hcon => hsc ⟨hcon.1, by simp [hcon.2]⟩⟩
    · simp [hs', herr] at h

/-- Inversion of a successful `Except` bind. -/
theorem bind_ok {α β : Type} {e : Except String α} {f : α → Except String β}
    {b : β} (h : e >>= f = Except.ok b) :
    ∃ a, e = Except.ok a ∧ f a = Except.ok b := by
  cases e with
  | error err => exact absurd h (by simp [Bind.bind, Except.bind])
  | ok a => exact ⟨a, rfl, by simpa [Bind.bind, Except.bind] using h⟩

/-- Every `.ok` exit of the parser's `try` body is a result stamped with the
traversal depth whose failure side carries a non-empty error message. -/
theorem parseAttempt_ok_inv (url : String) (payload : Json) (req : CrawlRequest)
    (t : Int) (depth : Nat) (r : CrawlResult)
    (h : parseAttempt url payload req t depth = Except.ok r) :
    r.depth = depth ∧
      (r.success = false → ∃ m, r.error_message = some m ∧ m ≠ "") := by
  unfold parseAttempt at h
  obtain ⟨results, _, h⟩ := bind_ok h
  by_cases ht : ¬ results.truthy = true
  · rw [if_pos ht] at h
    obtain ⟨hr, h2, _, _⟩ := validateCrawlResult_ok _ _ h
    subst hr
    exact ⟨rfl, fun hf => truthyOptStr_exists _ (h2 hf)⟩
  · rw [if_neg ht] at h
    obtain ⟨rd, _, h⟩ := bind_ok h
    obtain ⟨sc, _, h⟩ := bind_ok h
    by_cases h200 : ¬ sc.eqInt 200 = true
    · rw [if_pos h200] at h
      obtain ⟨sci, _, h⟩ := bind_ok h
      obtain ⟨hr, h2, _, _⟩ := validateCrawlResult_ok _ _ h
      subst hr
      exact ⟨rfl, fun hf => truthyOptStr_exists _ (h2 hf)⟩
    · rw [if_neg h200] at h
      obtain ⟨sci, _, h⟩ := bind_ok h
      obtain ⟨mdc, _, h⟩ := bind_ok h
      obtain ⟨ch, _, h⟩ := bind_ok h
      obtain ⟨meta, _, h⟩ := bind_ok h
      obtain ⟨il, _, h⟩ := bind_ok h
      obtain ⟨el, _, h⟩ := bind_ok h
      obtain ⟨ssp, _, h⟩ := bind_ok h
      obtain ⟨sss, _, h⟩ := bind_ok h
      obtain ⟨md, _, h⟩ := bind_ok h
      obtain ⟨hr, h2, _, _⟩ := validateCrawlResult_ok _ _ h
      subst hr
      exact ⟨rfl, fun hf => truthyOptStr_exists _ (h2 hf)⟩

/-- The parser always returns a `CrawlResult` (never propagates), stamped
with the traversal depth; failed results carry a non-empty message. -/
theorem parseCrawlResponse_ok (url : String) (payload : Json)
    (req : CrawlRequest) (t : Int) (depth : Nat) :
    ∃ r, parseCrawlResponse url payload req t depth = Except.ok r ∧
      r.depth = depth ∧
      (r.success = false → ∃ m, r.error_message = some m ∧ m ≠ "") := by
  unfold parseCrawlResponse
  cases hp : parseAttempt url payload req t depth with
  | ok r => exact ⟨r, rfl, parseAttempt_ok_inv url payload req t depth r hp⟩
  | error e =>
    have hne : ("Failed to parse response: " ++ e) ≠ "" := by
      intro hcon
      have hd : ("Failed to parse response: " ++ e).data = [] := by rw [hcon]
      simp [String.data_append] at hd
    refine ⟨{ url := stripSeedSlash url
              success := false
              error_message := some ("Failed to parse response: " ++ e)
              crawl_time_seconds := some t
              depth := depth }, ?_, rfl, fun _ => ⟨_, rfl, hne⟩⟩
    simp [validateCrawlResult, truthyOptStr, hne, pure, Except.pure, bind, Except.bind]

/-- C5: for every upstream behaviour — transport error, task failure, task
timeout, unknown status, or any completed payload however malformed — the
executor returns a `CrawlResult` without propagating an exception (provided
`str(exception)` of a transport error is non-empty, as every real exception
message is); failure behaviours produce `success = false` with
`error_message = str(e)`, and every non-success result carries a non-empty
message. -/
theorem C5_executor_never_raises :
    ∀ (up : UpstreamOutcome) (url : String) (req : CrawlRequest) (depth : Nat)
      (t : Int),
      (∀ msg, up = UpstreamOutcome.transportError msg → msg ≠ "") →
      ∃ r, crawlSingleUrl up url req depth t = Except.ok r ∧
        r.depth = depth ∧
        ((match up with | .completed _ => False | _ => True) →
          r.success = false ∧ r.error_message = some (upstreamErrorStr up)) ∧
        (r.success = false → ∃ m, r.error_message = some m ∧ m ≠ "") := by
  intro up url req depth t hmsg
  cases up with
  | completed payload =>
    obtain ⟨r, hr, hd, hfail⟩ := parseCrawlResponse_ok url payload req t depth
    exact ⟨r, hr, hd, fun hfalse => hfalse.elim, hfail⟩
  | transportError msg =>
    have hne : msg ≠ "" := hmsg msg rfl
    refine ⟨{ url := stripSeedSlash url
              success := false
              error_message := some msg
              crawl_time_seconds := some t
              depth := depth }, ?_, rfl, fun _ => ⟨rfl, rfl⟩,
            fun _ => ⟨msg, rfl, hne⟩⟩
    simp [crawlSingleUrl, validateCrawlResult, truthyOptStr, upstreamErrorStr, hne,
      pure, Except.pure, bind, Except.bind]
  | taskFailed err =>
    have hne : ("Crawl task failed: " ++ err) ≠ "" := by
      intro hcon
      have hd : ("Crawl task failed: " ++ err).data = [] := by rw [hcon]
      simp [String.data_append] at hd
    refine ⟨{ url := stripSeedSlash url
              success := false
              error_message := some ("Crawl task failed: " ++ err)
              crawl_time_seconds := some t
              depth := depth }, ?_, rfl, fun _ => ⟨rfl, rfl⟩,
            fun _ => ⟨_, rfl, hne⟩⟩
    simp [crawlSingleUrl, validateCrawlResult, truthyOptStr, upstreamErrorStr, hne,
      pure, Except.pure, bind, Except.bind]
  | unknownStatus s =>
    have hne : ("Unknown task status: " ++ s) ≠ "" := by
      intro hcon
      have hd : ("Unknown task status: " ++ s).data = [] := by rw [hcon]
      simp [String.data_append] at hd
    refine ⟨{ url := stripSeedSlash url
              success := false
              error_message := some ("Unknown task status: " ++ s)
              crawl_time_seconds := some t
              depth := depth }, ?_, rfl, fun _ => ⟨rfl, rfl⟩,
            fun _ => ⟨_, rfl, hne⟩⟩
    simp [crawlSingleUrl, validateCrawlResult, truthyOptStr, upstreamErrorStr, hne,
      pure, Except.pure, bind, Except.bind]
  | taskTimeout taskId =>
    have hne : ("Task " ++ taskId ++ " timed out after 30 seconds") ≠ "" := by
      intro hcon
      have hd : ("Task " ++ taskId ++ " timed out after 30 seconds").data = [] := by
        rw [hcon]
      simp [String.data_append] at hd
    refine ⟨{ url := stripSeedSlash url
              success := false
              error_message := some ("Task " ++ taskId ++ " timed out after 30 seconds")
              crawl_time_seconds := some t
              depth := depth }, ?_, rfl, fun _ => ⟨rfl, rfl⟩,
            fun _ => ⟨_, rfl, hne⟩⟩
    simp [crawlSingleUrl, validateCrawlResult, truthyOptStr, upstreamErrorStr, hne,
      pure, Except.pure, bind, Except.bind]

/-! ## Claim C7: screenshot dimension fallback -/

/-- C5 witness: a transport error with message `connection refused` yields a
failed result carrying exactly that message, at depth 0. -/
theorem C5_witness :
    ∃ r, crawlSingleUrl (UpstreamOutcome.transportError "connection refused")
        "https://x.com/" { urls := ["https://x.com/"] } 0 3 = Except.ok r ∧
      r.depth = 0 ∧
      ((match UpstreamOutcome.transportError "connection refused" with
        | .completed _ => False | _ => True) →
        r.success = false ∧
        r.error_message =
          some (upstreamErrorStr
            (UpstreamOutcome.transportError "connection refused"))) ∧
      (r.success = false → ∃ m, r.error_message = some m ∧ m ≠ "") :=
  C5_executor_never_raises (UpstreamOutcome.transportError "connection refused")
    "https://x.com/" { urls := ["https://x.com/"] } 0 3
    (by intro msg h; cases h; decide)

/-- C7 counterexample: a successful payload whose screenshot is VALID base64
of non-PNG bytes. `_get_png_dimensions` fails by returning `None` without
raising, so no fallback to the requested dimensions happens; the pydantic
screenshot-consistency check then fails and the whole result becomes a
non-success parse failure, contradicting the claimed success-with-fallback. -/
theorem C7_counterexample :
    (crawlSingleUrl
        (UpstreamOutcome.completed
          (Json.obj [("results", Json.arr [Json.obj
            [("status_code", Json.int 200), ("markdown", Json.str "hello"),
             ("screenshot", Json.str "AAAA")]])]))
        "https://x.com"
        (CrawlRequest.mk ["https://x.com"] false false false false false 1 10
          true (some 800) (some 600) (some 2) .enabled) 0 2).map
      (fun r => (r.success, r.error_message, r.screenshot_size)) =
    Except.ok (false,
      some "Failed to parse response: Screenshot data must include size information",
      none) := by
  rfl

/-- C7 (amended): the fallback to the requested width/height happens exactly
when `base64.b64decode` raises (invalid base64); the result is then still a
success with the undecodable screenshot attached and
`screenshot_size = {width, height}` as requested. (When decoding succeeds
but the PNG header is invalid, the result instead becomes a parse failure —
see the counterexample.) -/
theorem C7_screenshot_fallback :
    ∀ (url md ss e : String) (depth : Nat) (t : Int) (w h : Nat)
      (req : CrawlRequest),
      req.capture_screenshots = true →
      req.screenshot_width = some w →
      req.screenshot_height = some h →
      md ≠ "" → ss ≠ "" →
      b64decode ss = Except.error e →
      ∃ r, crawlSingleUrl
          (UpstreamOutcome.completed
            (Json.obj [("results", Json.arr [Json.obj
              [("status_code", Json.int 200), ("markdown", Json.str md),
               ("screenshot", Json.str ss)]])]))
          url req depth t = Except.ok r ∧
        r.success = true ∧ r.screenshot_base64 = some ss ∧
        r.screenshot_size = some ((w : Int), (h : Int)) ∧
        r.markdown = some md := by
  intro url md ss e depth t w h req hcap hw hh hmd hss hdec
  have hch : ∃ v, extractCleanedHtml req
      (Json.obj [("status_code", Json.int 200), ("markdown", Json.str md),
                 ("screenshot", Json.str ss)]) = Except.ok v := by
    by_cases hmo : req.markdown_only = true
    · exact ⟨none, by rw [extractCleanedHtml, if_pos hmo]; rfl⟩
    · exact ⟨some "", by rw [extractCleanedHtml, if_neg hmo]; rfl⟩
  have hmeta : ∃ v, extractMetadata req
      (Json.obj [("status_code", Json.int 200), ("markdown", Json.str md),
                 ("screenshot", Json.str ss)]) = Except.ok v := by
    by_cases hmo : req.markdown_only = true
    · exact ⟨none, by rw [extractMetadata, if_pos hmo]; rfl⟩
    · exact ⟨some [], by rw [extractMetadata, if_neg hmo]; rfl⟩
  have hlink : ∀ key, extractLinkList
      (Json.obj [("status_code", Json.int 200), ("markdown", Json.str md),
                 ("screenshot", Json.str ss)]) key = Except.ok (some []) := by
    intro key
    rfl
  have hil : ∃ v, extractInternalLinks req
      (Json.obj [("status_code", Json.int 200), ("markdown", Json.str md),
                 ("screenshot", Json.str ss)]) = Except.ok v := by
    by_cases h1 : req.scrape_internal_links = true ∨ req.scrape_external_links = true
    · by_cases h2 : req.scrape_internal_links = true
      · exact ⟨some [], by rw [extractInternalLinks, if_pos h1, if_pos h2, hlink]⟩
      · exact ⟨none, by rw [extractInternalLinks, if_pos h1, if_neg h2]; rfl⟩
    · exact ⟨none, by rw [extractInternalLinks, if_neg h1]; rfl⟩
  have hel : ∃ v, extractExternalLinks req
      (Json.obj [("status_code", Json.int 200), ("markdown", Json.str md),
                 ("screenshot", Json.str ss)]) = Except.ok v := by
    by_cases h1 : req.scrape_internal_links = true ∨ req.scrape_external_links = true
    · by_cases h2 : req.scrape_external_links = true
      · exact ⟨some [], by rw [extractExternalLinks, if_pos h1, if_pos h2, hlink]⟩
      · exact ⟨none, by rw [extractExternalLinks, if_pos h1, if_neg h2]; rfl⟩
    · exact ⟨none, by rw [extractExternalLinks, if_neg h1]; rfl⟩
  obtain ⟨ch, hch⟩ := hch
  obtain ⟨meta, hmeta⟩ := hmeta
  obtain ⟨il, hil⟩ := hil
  obtain ⟨el, hel⟩ := hel
  have hssc : extractScreenshot req
      (Json.obj [("status_code", Json.int 200), ("markdown", Json.str md),
                 ("screenshot", Json.str ss)]) =
      Except.ok (some ss, some (some (w : Int), some (h : Int))) := by
    simp [extractScreenshot, hcap, Json.get, alFind, Json.truthy, hss, hdec,
      coerceOptStr, hw, hh, bind, Except.bind, pure, Except.pure]
  have hmdx : extractMarkdown
      (Json.obj [("status_code", Json.int 200), ("markdown", Json.str md),
                 ("screenshot", Json.str ss)]) = Except.ok (Json.str md) := by
    simp [extractMarkdown, Json.get, alFind, Json.truthy, hmd, Json.pyStr,
      bind, Except.bind, pure, Except.pure]
  refine ⟨{ url := stripSeedSlash url
            success := true
            markdown := some md
            cleaned_html := ch
            metadata := meta
            internal_links := il
            external_links := el
            screenshot_base64 := some ss
            screenshot_size := some ((w : Int), (h : Int))
            status_code := some 200
            crawl_time_seconds := some t
            depth := depth }, ?_, rfl, rfl, rfl, rfl⟩
  show parseCrawlResponse url _ req t depth = _
  unfold parseCrawlResponse
  have hattempt : parseAttempt url
      (Json.obj [("results", Json.arr [Json.obj
        [("status_code", Json.int 200), ("markdown", Json.str md),
         ("screenshot", Json.str ss)]])]) req t depth =
      validateCrawlResult
        { url := stripSeedSlash url
          success := true
          markdown := some md
          cleaned_html := ch
          metadata := meta
          internal_links := il
          external_links := el
          screenshot_base64 := some ss
          screenshot_size := some ((w : Int), (h : Int))
          status_code := some 200
          crawl_time_seconds := some t
          depth := depth } := by
    unfold parseAttempt
    simp [Json.get, alFind, Json.truthy, Json.index0, Json.eqInt, coerceOptInt,
      hmdx, hch, hmeta, hil, hel, hssc, coerceSize, coerceOptStr,
      bind, Except.bind, pure, Except.pure]
  rw [hattempt]
  simp [validateCrawlResult, truthyOptStr, hmd, hss,
    bind, Except.bind, pure, Except.pure]

/-- C7 witness: the amended fallback theorem at a concrete payload whose
screenshot `"A"` fails base64 decoding: success with 800×600 attached. -/
theorem C7_witness :
    ∃ r, crawlSingleUrl
        (UpstreamOutcome.completed
          (Json.obj [("results", Json.arr [Json.obj
            [("status_code", Json.int 200), ("markdown", Json.str "hi"),
             ("screenshot", Json.str "A")]])]))
        "https://x.com"
        (CrawlRequest.mk ["https://x.com"] false false false false false 1 10
          true (some 800) (some 600) (some 2) .enabled) 0 2 = Except.ok r ∧
      r.success = true ∧ r.screenshot_base64 = some "A" ∧
      r.screenshot_size = some ((800 : Int), (600 : Int)) ∧
      r.markdown = some "hi" :=
  C7_screenshot_fallback "https://x.com" "hi" "A"
    "Invalid base64-encoded string: number of data characters cannot be 1 more than a multiple of 4"
    0 2 800 600
    (CrawlRequest.mk ["https://x.com"] false false false false false 1 10
      true (some 800) (some 600) (some 2) .enabled)
    rfl rfl rfl (by decide) (by decide) (by rfl)

/-! ## Claim C3: the cache-hit aliasing frame property -/

/-- Lookup through the aliased in-place depth write: the addressed key's
value gets the new depth (timestamp untouched); every other key reads
unchanged. -/
theorem alFind_writeThrough (key : CacheKeyData) (d : Nat) (k : CacheKeyData) :
    ∀ l : List (CacheKeyData × (CrawlResult × Int)),
      alFind k (l.map fun e =>
        if e.1 = key then (e.1, ({ e.2.1 with depth := d }, e.2.2)) else e) =
      (alFind k l).map
        (fun vt => if k = key then ({ vt.1 with depth := d }, vt.2) else vt) := by
  intro l
  induction l with
  | nil => rfl
  | cons hd tl ih =>
    obtain ⟨k0, vt⟩ := hd
    simp only [List.map_cons]
    by_cases hkey : k0 = key
    · rw [if_pos hkey]
      by_cases hk : k0 = k
      · simp only [alFind, if_pos hk, Option.map_some']
        rw [if_pos (hk ▸ hkey : k = key)]
      · simp only [alFind, if_neg hk, ih]
    · rw [if_neg hkey]
      by_cases hk : k0 = k
      · simp only [alFind, if_pos hk, Option.map_some']
        rw [if_neg (fun h : k = key => hkey (hk.trans h))]
      · simp only [alFind, if_neg hk, ih]

/-- A crawled result always carries the depth it was invoked at. -/
theorem crawlSingleUrl_ok_depth (up : UpstreamOutcome) (url : String)
    (req : CrawlRequest) (depth : Nat) (t : Int) (r : CrawlResult)
    (h : crawlSingleUrl up url req depth t = Except.ok r) : r.depth = depth := by
  cases up with
  | completed payload =>
    obtain ⟨r', hr', hd', _⟩ := parseCrawlResponse_ok url payload req t depth
    have : r' = r := by
      have := hr'.symm.trans h
      injection this
    rw [← this]; exact hd'
  | transportError msg =>
    simp only [crawlSingleUrl] at h
    obtain ⟨hr, _, _, _⟩ := validateCrawlResult_ok _ _ h
    rw [hr]
  | taskFailed err =>
    simp only [crawlSingleUrl] at h
    obtain ⟨hr, _, _, _⟩ := validateCrawlResult_ok _ _ h
    rw [hr]
  | unknownStatus s =>
    simp only [crawlSingleUrl] at h
    obtain ⟨hr, _, _, _⟩ := validateCrawlResult_ok _ _ h
    rw [hr]
  | taskTimeout taskId =>
    simp only [crawlSingleUrl] at h
    obtain ⟨hr, _, _, _⟩ := validateCrawlResult_ok _ _ h
    rw [hr]

/-- C3 counterexample: a cache entry stored with depth 5 is served during an
orchestration step at traversal depth 0; afterwards the STORED value's depth
reads 0 — the hit mutated the stored entry through the aliased dict,
contradicting <<no operation other than a set changes the stored value>>. -/
theorem C3_counterexample :
    (let req := CrawlRequest.mk ["https://x.com"] false true false true false
      2 10 false (some 1920) (some 1080) (some 2) CacheMode.enabled
    let key := getKey "https://x.com".data (requestToOptions req)
    let stored : CrawlResult :=
      { url := "https://x.com", success := true, markdown := some "m", depth := 5 }
    let cache := CrawlingCache.mk 100 [(key, (stored, 0))] []
    let st := CrawlState.mk [] 0 []
      [FrontierItem.mk "https://x.com" "https://x.com" 0 "https://x.com"] cache
    ((alFind key cache.cache).map (fun e => e.1.depth) = some 5) ∧
      ((crawlStep (StdlibChecks.mk (fun _ => true) (fun _ => true)) req
          (fun _ => UpstreamOutcome.transportError "unused") (fun _ => 0) 0
          st).map
        (fun st2 => (alFind key st2.cache.cache).map (fun e => e.1.depth)) =
        Except.ok (some 0))) := by
  exact ⟨rfl, rfl⟩

/-- C3 (amended): serving a cache hit during an orchestration overwrites the
stored entry's `depth` field in place (Python dict aliasing between the
value returned by `get` and the stored tuple), leaving its timestamp and all
other fields as well as every other key's entry unchanged; apart from this
depth write-through, only `set` changes a stored value. -/
theorem C3_cache_hit_aliasing :
    ∀ (checks : StdlibChecks) (req : CrawlRequest)
      (upstream : String → UpstreamOutcome) (elapsed : String → Int)
      (now : Int) (st : CrawlState) (item : FrontierItem)
      (rest : List FrontierItem) (v : CrawlResult) (cache1 : CrawlingCache)
      (st' : CrawlState),
      st.queue = item :: rest →
      item.normalized ∉ st.crawled →
      req.cache_mode ≠ CacheMode.bypass →
      st.cache.get item.url.data (requestToOptions req) now = (some v, cache1) →
      crawlStep checks req upstream elapsed now st = Except.ok st' →
      (∀ ts,
        alFind (getKey item.url.data (requestToOptions req)) cache1.cache =
          some (v, ts) →
        alFind (getKey item.url.data (requestToOptions req)) st'.cache.cache =
          some ({ v with depth := item.depth }, ts)) ∧
      (∀ k, k ≠ getKey item.url.data (requestToOptions req) →
        alFind k st'.cache.cache = alFind k cache1.cache) := by
  intro checks req upstream elapsed now st item rest v cache1 st' hqueue hmem
    hbypass hget hstep
  unfold crawlStep at hstep
  rw [hqueue] at hstep
  simp only [if_neg hmem, if_pos hbypass, hget] at hstep
  have hcache : st'.cache =
      cache1.writeThroughDepth (getKey item.url.data (requestToOptions req))
        item.depth := by
    cases hval : validateCrawlResult { v with depth := item.depth } with
    | error e =>
      rw [hval] at hstep
      simp at hstep
    | ok r =>
      rw [hval] at hstep
      simp only [] at hstep
      by_cases henq : item.depth < req.max_depth - 1 ∧
          (st.results ++ [r]).length < req.max_pages
      · rw [if_pos henq] at hstep
        by_cases hint : req.follow_internal_links = true ∧
            truthyLinks v.internal_links = true
        · rw [if_pos hint] at hstep
          obtain ⟨il, _, hstep⟩ := bind_ok hstep
          by_cases hext : req.follow_external_links = true ∧
              truthyLinks v.external_links = true
          · rw [if_pos hext] at hstep
            obtain ⟨el, _, hstep⟩ := bind_ok hstep
            injection hstep with hstep
            rw [← hstep]
          · rw [if_neg hext] at hstep
            obtain ⟨el, _, hstep⟩ := bind_ok hstep
            injection hstep with hstep
            rw [← hstep]
        · rw [if_neg hint] at hstep
          obtain ⟨il, _, hstep⟩ := bind_ok hstep
          by_cases hext : req.follow_external_links = true ∧
              truthyLinks v.external_links = true
          · rw [if_pos hext] at hstep
            obtain ⟨el, _, hstep⟩ := bind_ok hstep
            injection hstep with hstep
            rw [← hstep]
          · rw [if_neg hext] at hstep
            obtain ⟨el, _, hstep⟩ := bind_ok hstep
            injection hstep with hstep
            rw [← hstep]
      · rw [if_neg henq] at hstep
        injection hstep with hstep
        rw [← hstep]
  constructor
  · intro ts hfind
    rw [hcache]
    unfold CrawlingCache.writeThroughDepth
    rw [alFind_writeThrough, hfind]
    simp
  · intro k hk
    rw [hcache]
    unfold CrawlingCache.writeThroughDepth
    rw [alFind_writeThrough]
    cases alFind k cache1.cache with
    | none => rfl
    | some vt => simp [hk]

/-- C3 witness: the amended aliasing theorem applied to a concrete one-entry
cache served at depth 0: the stored depth becomes 0 with its timestamp kept,
and lookups at every other key are unchanged. -/
theorem C3_witness :
    (let req := CrawlRequest.mk ["https://x.com"] false true false true false
      2 10 false (some 1920) (some 1080) (some 2) CacheMode.enabled
    let key := getKey "https://x.com".data (requestToOptions req)
    let stored : CrawlResult :=
      { url := "https://x.com", success := true, markdown := some "m", depth := 5 }
    let cache := CrawlingCache.mk 100 [(key, (stored, 0))] []
    let st := CrawlState.mk [] 0 []
      [FrontierItem.mk "https://x.com" "https://x.com" 0 "https://x.com"] cache
    ∃ st2, crawlStep (StdlibChecks.mk (fun _ => true) (fun _ => true)) req
        (fun _ => UpstreamOutcome.transportError "unused2") (fun _ => 0) 0 st =
        Except.ok st2 ∧
      alFind key st2.cache.cache = some ({ stored with depth := 0 }, 0) ∧
      ∀ k, k ≠ key → alFind k st2.cache.cache = alFind k cache.cache) := by
  dsimp only
  have hstep : ∃ st2, crawlStep (StdlibChecks.mk (fun _ => true) (fun _ => true))
      (CrawlRequest.mk ["https://x.com"] false true false true false
        2 10 false (some 1920) (some 1080) (some 2) CacheMode.enabled)
      (fun _ => UpstreamOutcome.transportError "unused2") (fun _ => 0) 0
      (CrawlState.mk [] 0 []
        [FrontierItem.mk "https://x.com" "https://x.com" 0 "https://x.com"]
        (CrawlingCache.mk 100
          [(getKey "https://x.com".data
              (requestToOptions
                (CrawlRequest.mk ["https://x.com"] false true false true false
                  2 10 false (some 1920) (some 1080) (some 2)
                  CacheMode.enabled)),
            ({ url := "https://x.com", success := true, markdown := some "m", depth := 5 },
             0))] [])) = Except.ok st2 := ⟨_, rfl⟩
  obtain ⟨st2, h2⟩ := hstep
  have h := C3_cache_hit_aliasing
    (StdlibChecks.mk (fun _ => true) (fun _ => true))
    (CrawlRequest.mk ["https://x.com"] false true false true false
      2 10 false (some 1920) (some 1080) (some 2) CacheMode.enabled)
    (fun _ => UpstreamOutcome.transportError "unused2") (fun _ => 0) 0
    (CrawlState.mk [] 0 []
      [FrontierItem.mk "https://x.com" "https://x.com" 0 "https://x.com"]
      (CrawlingCache.mk 100
        [(getKey "https://x.com".data
            (requestToOptions
              (CrawlRequest.mk ["https://x.com"] false true false true false
                2 10 false (some 1920) (some 1080) (some 2)
                CacheMode.enabled)),
          ({ url := "https://x.com", success := true, markdown := some "m", depth := 5 },
           0))] []))
    (FrontierItem.mk "https://x.com" "https://x.com" 0 "https://x.com") []
    { url := "https://x.com", success := true, markdown := some "m", depth := 5 }
    _ st2 rfl (by decide) (by decide) rfl h2
  exact ⟨st2, h2, h.1 0 rfl, h.2⟩

/-! ## Claims C1 and C6: budgets and breadth-first depth assignment -/

/-- Every frontier item produced by internal-link expansion sits one level
below the page it was discovered on. -/
theorem expandInternalLinks_mem (checks : StdlibChecks) (crawled : List String)
    (url baseDomain : String) (depth : Nat) :
    ∀ (links : List String) (items : List FrontierItem),
      expandInternalLinks checks crawled url baseDomain depth links =
        Except.ok items →
      ∀ it ∈ items, it.depth = depth + 1 := by
  intro links
  induction links with
  | nil =>
    intro items h it hit
    injection h with h
    rw [← h] at hit
    exact absurd hit (List.not_mem_nil it)
  | cons link links ih =>
    intro items h it hit
    unfold expandInternalLinks at h
    obtain ⟨au, _, h⟩ := bind_ok h
    obtain ⟨nl, _, h⟩ := bind_ok h
    by_cases hm : nl ∈ crawled
    · rw [if_pos hm] at h
      exact ih items h it hit
    · rw [if_neg hm] at h
      obtain ⟨ln, _, h⟩ := bind_ok h
      obtain ⟨bn, _, h⟩ := bind_ok h
      obtain ⟨tail, htail, h⟩ := bind_ok h
      by_cases hd : ln = bn
      · rw [if_pos hd] at h
        injection h with h
        rw [← h] at hit
        rcases List.mem_cons.mp hit with h1 | h1
        · rw [h1]
        · exact ih tail htail it h1
      · rw [if_neg hd] at h
        injection h with h
        rw [← h] at hit
        exact ih tail htail it hit

/-- Every frontier item produced by external-link expansion sits one level
below the page it was discovered on. -/
theorem expandExternalLinks_mem (checks : StdlibChecks) (crawled : List String)
    (baseDomain : String) (depth : Nat) :
    ∀ (links : List String) (items : List FrontierItem),
      expandExternalLinks checks crawled baseDomain depth links =
        Except.ok items →
      ∀ it ∈ items, it.depth = depth + 1 := by
  intro links
  induction links with
  | nil =>
    intro items h it hit
    injection h with h
    rw [← h] at hit
    exact absurd hit (List.not_mem_nil it)
  | cons link links ih =>
    intro items h it hit
    unfold expandExternalLinks at h
    obtain ⟨nl, _, h⟩ := bind_ok h
    by_cases hm : nl ∈ crawled
    · rw [if_pos hm] at h
      exact ih items h it hit
    · rw [if_neg hm] at h
      obtain ⟨p, _, h⟩ := bind_ok h
      obtain ⟨bn, _, h⟩ := bind_ok h
      obtain ⟨tail, htail, h⟩ := bind_ok h
      by_cases hd : p.netloc ≠ bn
      · rw [if_pos hd] at h
        injection h with h
        rw [← h] at hit
        rcases List.mem_cons.mp hit with h1 | h1
        · rw [h1]
        · exact ih tail htail it h1
      · rw [if_neg hd] at h
        injection h with h
        rw [← h] at hit
        exact ih tail htail it hit

/-- Inversion of the two-stage conditional enqueue tree produced by the
link-expansion section of the loop body. -/
theorem ifTree_ok {E1 E2 : Except String (List FrontierItem)} {P2 : Prop}
    [Decidable P2] {g : List FrontierItem → List FrontierItem → CrawlState}
    {st' : CrawlState}
    (h : (do
          let y ← E1
          if P2 then do
            let y1 ← E2
            Except.ok (g y y1)
          else do
            let y1 ← pure []
            Except.ok (g y y1)) = Except.ok st') :
    ∃ y y1, E1 = Except.ok y ∧ (P2 → E2 = Except.ok y1) ∧ (¬ P2 → y1 = []) ∧
      st' = g y y1 := by
  obtain ⟨y, h1, h⟩ := bind_ok h
  by_cases hp : P2
  · rw [if_pos hp] at h
    obtain ⟨y1, h2, h⟩ := bind_ok h
    injection h with h
    exact ⟨y, y1, h1, fun _ => h2, fun hn => absurd hp hn, h.symm⟩
  · rw [if_neg hp] at h
    obtain ⟨y1, h2, h⟩ := bind_ok h
    have hnil : y1 = [] := by simpa [pure, Except.pure] using h2.symm
    injection h with h
    exact ⟨y, y1, h1, fun hpp => absurd hpp hp, fun _ => hnil, h.symm⟩

/-- Depth bound for the items delivered by one `ifTree_ok` inversion. -/
theorem expandPair_mem (checks : StdlibChecks) (crawled : List String)
    (url baseDomain : String) (depth : Nat) (P1 P2 : Prop)
    (ilinks elinks : List String) (il el : List FrontierItem)
    (hilP : P1 → expandInternalLinks checks crawled url baseDomain depth
      ilinks = Except.ok il)
    (hilN : ¬ P1 → il = [])
    (helP : P2 → expandExternalLinks checks crawled baseDomain depth elinks =
      Except.ok el)
    (helN : ¬ P2 → el = []) :
    ∀ it ∈ il ++ el, it.depth = depth + 1 := by
  intro it hit
  rcases List.mem_append.mp hit with h1 | h1
  · by_cases hp : P1
    · exact expandInternalLinks_mem checks crawled url baseDomain depth
        ilinks il (hilP hp) it h1
    · rw [hilN hp] at h1
      exact absurd h1 (List.not_mem_nil it)
  · by_cases hp : P2
    · exact expandExternalLinks_mem checks crawled baseDomain depth
        elinks el (helP hp) it h1
    · rw [helN hp] at h1
      exact absurd h1 (List.not_mem_nil it)

/-- Case analysis of one orchestrator iteration: either the popped item was
already visited and is dropped, or exactly one result is appended carrying
the popped item's depth, with any newly enqueued links one level deeper —
and none at all when the popped depth has exhausted `max_depth - 1`. -/
theorem crawlStep_spec (checks : StdlibChecks) (req : CrawlRequest)
    (upstream : String → UpstreamOutcome) (elapsed : String → Int) (now : Int)
    (st : CrawlState) (item : FrontierItem) (rest : List FrontierItem)
    (st' : CrawlState) (hqueue : st.queue = item :: rest)
    (hstep : crawlStep checks req upstream elapsed now st = Except.ok st') :
    (item.normalized ∈ st.crawled ∧ st' = { st with queue := rest }) ∨
    (item.normalized ∉ st.crawled ∧
      ∃ r newItems,
        st'.results = st.results ++ [r] ∧ r.depth = item.depth ∧
        st'.queue = rest ++ newItems ∧
        (∀ it ∈ newItems, it.depth = item.depth + 1) ∧
        (¬ item.depth < req.max_depth - 1 → newItems = [])) := by
  unfold crawlStep at hstep
  rw [hqueue] at hstep
  by_cases hmem : item.normalized ∈ st.crawled
  · left
    simp only [if_pos hmem] at hstep
    injection hstep with hstep
    exact ⟨hmem, hstep.symm⟩
  · right
    refine ⟨hmem, ?_⟩
    simp only [if_neg hmem] at hstep
    cases hc : (if req.cache_mode ≠ CacheMode.bypass then
        st.cache.get item.url.data (requestToOptions req) now
      else (none, st.cache)) with
    | mk o cache1 =>
      rw [hc] at hstep
      cases o with
      | some v =>
        dsimp only at hstep
        cases hval : validateCrawlResult { v with depth := item.depth } with
        | error e =>
          rw [hval] at hstep
          simp at hstep
        | ok r =>
          rw [hval] at hstep
          simp only [] at hstep
          obtain ⟨hr, _, _, _⟩ := validateCrawlResult_ok _ _ hval
          by_cases henq : item.depth < req.max_depth - 1 ∧
              (st.results ++ [r]).length < req.max_pages
          · rw [if_pos henq] at hstep
            by_cases hP1 : req.follow_internal_links = true ∧
                truthyLinks v.internal_links = true
            · rw [if_pos hP1] at hstep
              obtain ⟨il, el, hil, helP, helN, hst⟩ := ifTree_ok hstep
              refine ⟨r, il ++ el, by rw [hst], by rw [hr], by rw [hst]; simp, ?_,
                fun hcon => absurd henq.1 hcon⟩
              exact expandPair_mem checks (st.crawled ++ [item.normalized])
                item.url item.baseDomain item.depth _ _ _ _ il el
                (fun _ => hil) (fun hn => absurd hP1 hn) helP helN
            · rw [if_neg hP1] at hstep
              obtain ⟨il, el, hil, helP, helN, hst⟩ := ifTree_ok hstep
              have hilN : il = [] := by simpa [pure, Except.pure] using hil.symm
              refine ⟨r, il ++ el, by rw [hst], by rw [hr], by rw [hst]; simp, ?_,
                fun hcon => absurd henq.1 hcon⟩
              exact expandPair_mem checks (st.crawled ++ [item.normalized])
                item.url item.baseDomain item.depth
                (req.follow_internal_links = true ∧
                  truthyLinks v.internal_links = true) _
                (v.internal_links.getD []) _ il el
                (fun hp => absurd hp hP1) (fun _ => hilN) helP helN
          · rw [if_neg henq] at hstep
            injection hstep with hstep
            refine ⟨r, [], by rw [← hstep], by rw [hr], ?_, ?_, fun _ => rfl⟩
            · rw [← hstep]
              simp
            · intro it hit
              exact absurd hit (List.not_mem_nil it)
      | none =>
        dsimp only at hstep
        cases hcr : crawlSingleUrl (upstream item.url) item.url req item.depth
            (elapsed item.url) with
        | error e =>
          rw [hcr] at hstep
          simp at hstep
        | ok result =>
          rw [hcr] at hstep
          simp only [] at hstep
          have hdep := crawlSingleUrl_ok_depth _ _ _ _ _ _ hcr
          by_cases henq : result.success = true ∧
              item.depth < req.max_depth - 1 ∧
              (st.results ++ [result]).length < req.max_pages
          · rw [if_pos henq] at hstep
            by_cases hP1 : req.follow_internal_links = true ∧
                truthyLinks result.internal_links = true
            · rw [if_pos hP1] at hstep
              obtain ⟨il, el, hil, helP, helN, hst⟩ := ifTree_ok hstep
              refine ⟨result, il ++ el, by rw [hst], hdep, by rw [hst]; simp, ?_,
                fun hcon => absurd henq.2.1 hcon⟩
              exact expandPair_mem checks (st.crawled ++ [item.normalized])
                item.url item.baseDomain item.depth _ _ _ _ il el
                (fun _ => hil) (fun hn => absurd hP1 hn) helP helN
            · rw [if_neg hP1] at hstep
              obtain ⟨il, el, hil, helP, helN, hst⟩ := ifTree_ok hstep
              have hilN : il = [] := by simpa [pure, Except.pure] using hil.symm
              refine ⟨result, il ++ el, by rw [hst], hdep, by rw [hst]; simp, ?_,
                fun hcon => absurd henq.2.1 hcon⟩
              exact expandPair_mem checks (st.crawled ++ [item.normalized])
                item.url item.baseDomain item.depth
                (req.follow_internal_links = true ∧
                  truthyLinks result.internal_links = true) _
                (result.internal_links.getD []) _ il el
                (fun hp => absurd hp hP1) (fun _ => hilN) helP helN
          · rw [if_neg henq] at hstep
            injection hstep with hstep
            refine ⟨result, [], by rw [← hstep], hdep, ?_, ?_, fun _ => rfl⟩
            · rw [← hstep]
              simp
            · intro it hit
              exact absurd hit (List.not_mem_nil it)

/-- The page and depth budgets are loop invariants of `crawlLoop`. -/
theorem crawlLoop_inv (checks : StdlibChecks) (req : CrawlRequest)
    (upstream : String → UpstreamOutcome) (elapsed : String → Int) (now : Int) :
    ∀ (fuel : Nat) (st stF : CrawlState),
      crawlLoop checks req upstream elapsed now fuel st = Except.ok stF →
      st.results.length ≤ req.max_pages →
      (∀ r ∈ st.results, r.depth ≤ req.max_depth - 1) →
      (∀ it ∈ st.queue, it.depth ≤ req.max_depth - 1) →
      stF.results.length ≤ req.max_pages ∧
        ∀ r ∈ stF.results, r.depth ≤ req.max_depth - 1 := by
  intro fuel
  induction fuel with
  | zero =>
    intro st stF h h1 h2 h3
    injection h with h
    rw [← h]
    exact ⟨h1, h2⟩
  | succ fuel ih =>
    intro st stF h h1 h2 h3
    unfold crawlLoop at h
    by_cases hg : (¬ st.queue.isEmpty = true) ∧ st.results.length < req.max_pages
    · rw [if_pos hg] at h
      cases hs : crawlStep checks req upstream elapsed now st with
      | error e => rw [hs] at h; simp at h
      | ok st1 =>
        rw [hs] at h
        dsimp only at h
        obtain ⟨item, rest, hqueue⟩ : ∃ item rest, st.queue = item :: rest := by
          cases hq : st.queue with
          | nil => rw [hq] at hg; simp at hg
          | cons a l => exact ⟨a, l, rfl⟩
        rcases crawlStep_spec checks req upstream elapsed now st item rest st1
            hqueue hs with ⟨_, hskip⟩ | ⟨_, r, newItems, hres, hdep, hq, hnew, _⟩
        · refine ih st1 stF h ?_ ?_ ?_
          · rw [hskip]; exact h1
          · rw [hskip]; exact h2
          · rw [hskip]
            intro it hit
            exact h3 it (by rw [hqueue]; exact List.mem_cons_of_mem _ hit)
        · refine ih st1 stF h ?_ ?_ ?_
          · rw [hres, List.length_append]
            simpa using hg.2
          · rw [hres]
            intro x hx
            rcases List.mem_append.mp hx with hx1 | hx1
            · exact h2 x hx1
            · have : x = r := by simpa using hx1
              rw [this, hdep]
              exact h3 item (by rw [hqueue]; exact List.mem_cons_self _ _)
          · rw [hq]
            intro it hit
            rcases List.mem_append.mp hit with hit1 | hit1
            · exact h3 it (by rw [hqueue]; exact List.mem_cons_of_mem _ hit1)
            · by_cases hlt : item.depth < req.max_depth - 1
              · rw [hnew it hit1]
                exact hlt
              · rw [hnew it hit1]
                have := ‹¬ item.depth < req.max_depth - 1 → newItems = []› hlt
                rw [this] at hit1
                exact absurd hit1 (List.not_mem_nil it)
    · rw [if_neg hg] at h
      injection h with h
      rw [← h]
      exact ⟨h1, h2⟩

/-- Every seed enqueued by `initCrawlState` sits at depth 0, on an empty
result list. -/
theorem initQueue_aux (checks : StdlibChecks) :
    ∀ (urls : List String) (acc q : List FrontierItem),
      List.foldlM
        (fun acc url => do
          let normalizedUrl ← normalizeUrlStr checks url
          let domain ← originDomain checks url
          pure (acc ++ [FrontierItem.mk url normalizedUrl 0 domain]))
        acc urls = Except.ok q →
      (∀ it ∈ acc, it.depth = 0) → ∀ it ∈ q, it.depth = 0 := by
  intro urls
  induction urls with
  | nil =>
    intro acc q h hacc
    rw [List.foldlM_nil] at h
    have : acc = q := by simpa [pure, Except.pure] using h
    rw [← this]
    exact hacc
  | cons u us ih =>
    intro acc q h hacc
    rw [List.foldlM_cons] at h
    obtain ⟨acc1, hacc1, h⟩ := bind_ok h
    obtain ⟨nu, _, hacc1⟩ := bind_ok hacc1
    obtain ⟨dom, _, hacc1⟩ := bind_ok hacc1
    have heq : acc1 = acc ++ [FrontierItem.mk u nu 0 dom] := by
      simpa [pure, Except.pure] using hacc1.symm
    refine ih acc1 q h ?_
    intro it hit
    rw [heq] at hit
    rcases List.mem_append.mp hit with h1 | h1
    · exact hacc it h1
    · have : it = FrontierItem.mk u nu 0 dom := by simpa using h1
      rw [this]

/-- Structure of the seeded initial state. -/
theorem initCrawlState_spec (checks : StdlibChecks) (req : CrawlRequest)
    (cache : CrawlingCache) (st0 : CrawlState)
    (h : initCrawlState checks req cache = Except.ok st0) :
    st0.results = [] ∧ ∀ it ∈ st0.queue, it.depth = 0 := by
  unfold initCrawlState at h
  obtain ⟨q, hq, h⟩ := bind_ok h
  have hst : st0 = { results := [], cachedCount := 0, crawled := [], queue := q
                     cache := cache } := by
    simpa [pure, Except.pure] using h.symm
  rw [hst]
  exact ⟨rfl, initQueue_aux checks req.urls [] q hq
    (fun it hit => absurd hit (List.not_mem_nil it))⟩

/-- C1: a pre-validated recursive crawl returns at most `max_pages` results,
every returned result sits at depth at most `max_depth - 1`, and a page
popped at depth `max_depth - 1` enqueues none of its links while still being
crawled and counted when not a duplicate. -/
theorem C1_budget_invariants :
    (∀ (checks : StdlibChecks) (req : CrawlRequest)
       (upstream : String → UpstreamOutcome) (elapsed : String → Int)
       (now : Int) (cache : CrawlingCache) (fuel : Nat) (stF : CrawlState),
      req.Valid →
      (req.follow_internal_links = true ∨ req.follow_external_links = true) →
      crawlRecursive checks req upstream elapsed now cache fuel =
        Except.ok stF →
      stF.results.length ≤ req.max_pages ∧
        ∀ r ∈ stF.results, r.depth ≤ req.max_depth - 1) ∧
    (∀ (checks : StdlibChecks) (req : CrawlRequest)
       (upstream : String → UpstreamOutcome) (elapsed : String → Int)
       (now : Int) (st : CrawlState) (item : FrontierItem)
       (rest : List FrontierItem) (st' : CrawlState),
      st.queue = item :: rest →
      item.depth = req.max_depth - 1 →
      crawlStep checks req upstream elapsed now st = Except.ok st' →
      st'.queue = rest ∧
        (item.normalized ∉ st.crawled →
          ∃ r, st'.results = st.results ++ [r] ∧ r.depth = item.depth)) := by
  constructor
  · intro checks req upstream elapsed now cache fuel stF _hvalid _hfollow h
    unfold crawlRecursive at h
    obtain ⟨st0, h0, h⟩ := bind_ok h
    obtain ⟨hres0, hq0⟩ := initCrawlState_spec checks req cache st0 h0
    refine crawlLoop_inv checks req upstream elapsed now fuel st0 stF h ?_ ?_ ?_
    · rw [hres0]; simp
    · rw [hres0]; intro r hr; exact absurd hr (List.not_mem_nil r)
    · intro it hit
      rw [hq0 it hit]
      exact Nat.zero_le _
  · intro checks req upstream elapsed now st item rest st' hqueue hdepth hstep
    rcases crawlStep_spec checks req upstream elapsed now st item rest st'
        hqueue hstep with ⟨hmem, hskip⟩ | ⟨hmem, r, newItems, hres, hdep, hq, _, hmax⟩
    · constructor
      · rw [hskip]
      · intro hcon; exact absurd hmem hcon
    · have hempty : newItems = [] := by
        refine hmax ?_
        rw [hdepth]
        exact Nat.lt_irrefl _
      constructor
      · rw [hq, hempty, List.append_nil]
      · intro _
        exact ⟨r, hres, hdep⟩

/-- C1 witness: a concrete one-seed recursive crawl against a failing
upstream stays within its page and depth budgets, and a concrete step at
depth `max_depth - 1` pops the item without enqueuing anything while still
appending its result. -/
theorem C1_witness :
    (let req := CrawlRequest.mk ["https://c1.example"] false true false true
      false 2 10 false (some 1920) (some 1080) (some 2) CacheMode.enabled
    let checks := StdlibChecks.mk (fun _ => true) (fun _ => true)
    (∃ stF, crawlRecursive checks req
        (fun _ => UpstreamOutcome.transportError "down") (fun _ => 1) 0
        (CrawlingCache.mk 100 [] []) 4 = Except.ok stF ∧
      stF.results.length ≤ req.max_pages ∧
      ∀ r ∈ stF.results, r.depth ≤ req.max_depth - 1) ∧
    (∃ st2, crawlStep checks req
        (fun _ => UpstreamOutcome.transportError "down") (fun _ => 1) 0
        (CrawlState.mk [] 0 []
          [FrontierItem.mk "https://c1b.example" "https://c1b.example" 1
            "https://c1b.example"] (CrawlingCache.mk 100 [] [])) =
        Except.ok st2 ∧
      st2.queue = [] ∧ ∃ r, st2.results = [] ++ [r] ∧ r.depth = 1)) := by
  dsimp only
  constructor
  · have hrun : ∃ stF, crawlRecursive
        (StdlibChecks.mk (fun _ => true) (fun _ => true))
        (CrawlRequest.mk ["https://c1.example"] false true false true
          false 2 10 false (some 1920) (some 1080) (some 2) CacheMode.enabled)
        (fun _ => UpstreamOutcome.transportError "down") (fun _ => 1) 0
        (CrawlingCache.mk 100 [] []) 4 = Except.ok stF := ⟨_, rfl⟩
    obtain ⟨stF, hrun⟩ := hrun
    have h := C1_budget_invariants.1
      (StdlibChecks.mk (fun _ => true) (fun _ => true))
      (CrawlRequest.mk ["https://c1.example"] false true false true
        false 2 10 false (some 1920) (some 1080) (some 2) CacheMode.enabled)
      (fun _ => UpstreamOutcome.transportError "down") (fun _ => 1) 0
      (CrawlingCache.mk 100 [] []) 4 stF (by decide) (Or.inl rfl) hrun
    exact ⟨stF, hrun, h.1, h.2⟩
  · have hstep : ∃ st2, crawlStep
        (StdlibChecks.mk (fun _ => true) (fun _ => true))
        (CrawlRequest.mk ["https://c1.example"] false true false true
          false 2 10 false (some 1920) (some 1080) (some 2) CacheMode.enabled)
        (fun _ => UpstreamOutcome.transportError "down") (fun _ => 1) 0
        (CrawlState.mk [] 0 []
          [FrontierItem.mk "https://c1b.example" "https://c1b.example" 1
            "https://c1b.example"] (CrawlingCache.mk 100 [] [])) =
        Except.ok st2 := ⟨_, rfl⟩
    obtain ⟨st2, hstep⟩ := hstep
    have h := C1_budget_invariants.2
      (StdlibChecks.mk (fun _ => true) (fun _ => true))
      (CrawlRequest.mk ["https://c1.example"] false true false true
        false 2 10 false (some 1920) (some 1080) (some 2) CacheMode.enabled)
      (fun _ => UpstreamOutcome.transportError "down") (fun _ => 1) 0
      (CrawlState.mk [] 0 []
        [FrontierItem.mk "https://c1b.example" "https://c1b.example" 1
          "https://c1b.example"] (CrawlingCache.mk 100 [] []))
      (FrontierItem.mk "https://c1b.example" "https://c1b.example" 1
        "https://c1b.example") [] st2 rfl rfl hstep
    exact ⟨st2, hstep, h.1, h.2 (by simp)⟩

/-- C6: breadth-first depth assignment — seeds enter the frontier at depth 0;
every item an iteration enqueues beyond the inherited frontier sits exactly
one level below the popped item, and any result the iteration appends carries
the popped item's depth; and on a cache hit the appended result is the cached
value with its `depth` field overwritten by the traversal depth, whatever
depth the cached value itself stored. -/
theorem C6_depth_assignment :
    (∀ (checks : StdlibChecks) (req : CrawlRequest) (cache : CrawlingCache)
       (st0 : CrawlState),
      initCrawlState checks req cache = Except.ok st0 →
      ∀ it ∈ st0.queue, it.depth = 0) ∧
    (∀ (checks : StdlibChecks) (req : CrawlRequest)
       (upstream : String → UpstreamOutcome) (elapsed : String → Int)
       (now : Int) (st : CrawlState) (item : FrontierItem)
       (rest : List FrontierItem) (st' : CrawlState),
      st.queue = item :: rest →
      crawlStep checks req upstream elapsed now st = Except.ok st' →
      (∀ it ∈ st'.queue, it ∈ rest ∨ it.depth = item.depth + 1) ∧
      (st'.results = st.results ∨
        ∃ r, st'.results = st.results ++ [r] ∧ r.depth = item.depth)) ∧
    (∀ (checks : StdlibChecks) (req : CrawlRequest)
       (upstream : String → UpstreamOutcome) (elapsed : String → Int)
       (now : Int) (st : CrawlState) (item : FrontierItem)
       (rest : List FrontierItem) (v : CrawlResult) (cache1 : CrawlingCache)
       (st' : CrawlState),
      st.queue = item :: rest →
      item.normalized ∉ st.crawled →
      req.cache_mode ≠ CacheMode.bypass →
      st.cache.get item.url.data (requestToOptions req) now = (some v, cache1) →
      crawlStep checks req upstream elapsed now st = Except.ok st' →
      st'.results = st.results ++ [{ v with depth := item.depth }]) := by
  refine ⟨?_, ?_, ?_⟩
  · intro checks req cache st0 h
    exact (initCrawlState_spec checks req cache st0 h).2
  · intro checks req upstream elapsed now st item rest st' hqueue hstep
    rcases crawlStep_spec checks req upstream elapsed now st item rest st'
        hqueue hstep with ⟨_, hskip⟩ | ⟨_, r, newItems, hres, hdep, hq, hnew, _⟩
    · constructor
      · intro it hit
        rw [hskip] at hit
        exact Or.inl hit
      · left
        rw [hskip]
    · constructor
      · intro it hit
        rw [hq] at hit
        rcases List.mem_append.mp hit with h1 | h1
        · exact Or.inl h1
        · exact Or.inr (hnew it h1)
      · exact Or.inr ⟨r, hres, hdep⟩
  · intro checks req upstream elapsed now st item rest v cache1 st' hqueue hmem
      hbypass hget hstep
    unfold crawlStep at hstep
    rw [hqueue] at hstep
    simp only [if_neg hmem, if_pos hbypass, hget] at hstep
    cases hval : validateCrawlResult { v with depth := item.depth } with
    | error e =>
      rw [hval] at hstep
      simp at hstep
    | ok r =>
      rw [hval] at hstep
      simp only [] at hstep
      obtain ⟨hr, _, _, _⟩ := validateCrawlResult_ok _ _ hval
      by_cases henq : item.depth < req.max_depth - 1 ∧
          (st.results ++ [r]).length < req.max_pages
      · rw [if_pos henq] at hstep
        by_cases hP1 : req.follow_internal_links = true ∧
            truthyLinks v.internal_links = true
        · rw [if_pos hP1] at hstep
          obtain ⟨il, el, _, _, _, hst⟩ := ifTree_ok hstep
          rw [hst, hr]
        · rw [if_neg hP1] at hstep
          obtain ⟨il, el, _, _, _, hst⟩ := ifTree_ok hstep
          rw [hst, hr]
      · rw [if_neg henq] at hstep
        injection hstep with hstep
        rw [← hstep, hr]

/-- C6 witness: the concrete cache-hit step of depth overwrite — an entry
stored with depth 7 is served while the frontier item sits at depth 2, and
the appended result reads depth 2 — together with the seeded initial state
of a one-URL request and the enqueue levels of its first step. -/
theorem C6_witness :
    (let req := CrawlRequest.mk ["https://c6.example"] false true false true
      false 3 10 false (some 1920) (some 1080) (some 2) CacheMode.enabled
    let checks := StdlibChecks.mk (fun _ => true) (fun _ => true)
    let key := getKey "https://c6.example".data (requestToOptions req)
    let stored : CrawlResult :=
      { url := "https://c6.example", success := true, markdown := some "m",
        depth := 7 }
    let cache := CrawlingCache.mk 100 [(key, (stored, 0))] []
    let st := CrawlState.mk [] 0 []
      [FrontierItem.mk "https://c6.example" "https://c6.example" 2
        "https://c6.example"] cache
    (∃ st0, initCrawlState checks req (CrawlingCache.mk 100 [] []) =
        Except.ok st0 ∧ ∀ it ∈ st0.queue, it.depth = 0) ∧
    (∃ st2, crawlStep checks req
        (fun _ => UpstreamOutcome.transportError "unused6") (fun _ => 1) 0
        st = Except.ok st2 ∧
      (∀ it ∈ st2.queue, it ∈ ([] : List FrontierItem) ∨ it.depth = 3) ∧
      st2.results = [] ++ [{ stored with depth := 2 }])) := by
  dsimp only
  constructor
  · have hinit : ∃ st0, initCrawlState
        (StdlibChecks.mk (fun _ => true) (fun _ => true))
        (CrawlRequest.mk ["https://c6.example"] false true false true
          false 3 10 false (some 1920) (some 1080) (some 2) CacheMode.enabled)
        (CrawlingCache.mk 100 [] []) = Except.ok st0 := ⟨_, rfl⟩
    obtain ⟨st0, hinit⟩ := hinit
    exact ⟨st0, hinit, C6_depth_assignment.1
      (StdlibChecks.mk (fun _ => true) (fun _ => true))
      (CrawlRequest.mk ["https://c6.example"] false true false true
        false 3 10 false (some 1920) (some 1080) (some 2) CacheMode.enabled)
      (CrawlingCache.mk 100 [] []) st0 hinit⟩
  · have hstep : ∃ st2, crawlStep
        (StdlibChecks.mk (fun _ => true) (fun _ => true))
        (CrawlRequest.mk ["https://c6.example"] false true false true
          false 3 10 false (some 1920) (some 1080) (some 2) CacheMode.enabled)
        (fun _ => UpstreamOutcome.transportError "unused6") (fun _ => 1) 0
        (CrawlState.mk [] 0 []
          [FrontierItem.mk "https://c6.example" "https://c6.example" 2
            "https://c6.example"]
          (CrawlingCache.mk 100
            [(getKey "https://c6.example".data
                (requestToOptions
                  (CrawlRequest.mk ["https://c6.example"] false true false true
                    false 3 10 false (some 1920) (some 1080) (some 2)
                    CacheMode.enabled)),
              ({ url := "https://c6.example", success := true,
                 markdown := some "m", depth := 7 }, 0))] [])) =
        Except.ok st2 := ⟨_, rfl⟩
    obtain ⟨st2, hstep⟩ := hstep
    have hq := (C6_depth_assignment.2.1
      (StdlibChecks.mk (fun _ => true) (fun _ => true))
      (CrawlRequest.mk ["https://c6.example"] false true false true
        false 3 10 false (some 1920) (some 1080) (some 2) CacheMode.enabled)
      (fun _ => UpstreamOutcome.transportError "unused6") (fun _ => 1) 0
      (CrawlState.mk [] 0 []
        [FrontierItem.mk "https://c6.example" "https://c6.example" 2
          "https://c6.example"]
        (CrawlingCache.mk 100
          [(getKey "https://c6.example".data
              (requestToOptions
                (CrawlRequest.mk ["https://c6.example"] false true false true
                  false 3 10 false (some 1920) (some 1080) (some 2)
                  CacheMode.enabled)),
            ({ url := "https://c6.example", success := true,
               markdown := some "m", depth := 7 }, 0))] []))
      (FrontierItem.mk "https://c6.example" "https://c6.example" 2
        "https://c6.example") [] st2 rfl hstep).1
    have hres := C6_depth_assignment.2.2
      (StdlibChecks.mk (fun _ => true) (fun _ => true))
      (CrawlRequest.mk ["https://c6.example"] false true false true
        false 3 10 false (some 1920) (some 1080) (some 2) CacheMode.enabled)
      (fun _ => UpstreamOutcome.transportError "unused6") (fun _ => 1) 0
      (CrawlState.mk [] 0 []
        [FrontierItem.mk "https://c6.example" "https://c6.example" 2
          "https://c6.example"]
        (CrawlingCache.mk 100
          [(getKey "https://c6.example".data
              (requestToOptions
                (CrawlRequest.mk ["https://c6.example"] false true false true
                  false 3 10 false (some 1920) (some 1080) (some 2)
                  CacheMode.enabled)),
            ({ url := "https://c6.example", success := true,
               markdown := some "m", depth := 7 }, 0))] []))
      (FrontierItem.mk "https://c6.example" "https://c6.example" 2
        "https://c6.example") []
      { url := "https://c6.example", success := true, markdown := some "m",
        depth := 7 }
      _ st2 rfl (by simp) (by decide) rfl hstep
    exact ⟨st2, hstep, hq, hres⟩

/-! ## Claim C9: idempotence of the traversal URL normalizer -/

set_option maxHeartbeats 1000000

/-- `Char.ofNat` on a valid code point reads back the same code point. -/
theorem char_toNat_ofNat (n : Nat) (h : n.isValidChar) :
    (Char.ofNat n).toNat = n := by
  unfold Char.ofNat
  rw [dif_pos h]
  unfold Char.ofNatAux Char.toNat
  simp [UInt32.toNat, UInt32.ofNatCore]

/-- Case description of `pyLowerChar` at the code-point level. -/
theorem pyLowerChar_spec (c : Char) :
    (65 ≤ c.toNat ∧ c.toNat ≤ 90 ∧ (pyLowerChar c).toNat = c.toNat + 32) ∨
    (¬ (65 ≤ c.toNat ∧ c.toNat ≤ 90) ∧ pyLowerChar c = c) := by
  unfold pyLowerChar
  by_cases h : 'A' ≤ c ∧ c ≤ 'Z'
  · left
    have h1 : 65 ≤ c.toNat := h.1
    have h2 : c.toNat ≤ 90 := h.2
    refine ⟨h1, h2, ?_⟩
    rw [if_pos h]
    exact char_toNat_ofNat _ (Or.inl (by omega))
  · right
    exact ⟨fun hc => h ⟨hc.1, hc.2⟩, if_neg h⟩

/-- Lower-casing a character twice equals lower-casing it once. -/
theorem pyLowerChar_idem (c : Char) : pyLowerChar (pyLowerChar c) = pyLowerChar c := by
  rcases pyLowerChar_spec c with ⟨h1, h2, h3⟩ | ⟨h1, h2⟩
  · rcases pyLowerChar_spec (pyLowerChar c) with ⟨g1, g2, _⟩ | ⟨_, g2⟩
    · omega
    · exact g2
  · rw [h2]
    rcases pyLowerChar_spec c with ⟨g1, g2, _⟩ | ⟨_, g2⟩
    · exact absurd ⟨g1, g2⟩ h1
    · exact g2

/-- `str.lower` is idempotent. -/
theorem pyLower_idem (s : List Char) : pyLower (pyLower s) = pyLower s := by
  unfold pyLower
  rw [List.map_map]
  exact List.map_congr_left fun c _ => pyLowerChar_idem c

/-- Lower-casing keeps printable-ASCII characters printable ASCII. -/
theorem pyLowerChar_plain {c : Char} (h : 0x20 < c.toNat ∧ c.toNat < 0x7f) :
    0x20 < (pyLowerChar c).toNat ∧ (pyLowerChar c).toNat < 0x7f := by
  rcases pyLowerChar_spec c with ⟨h1, h2, h3⟩ | ⟨_, h2⟩
  · omega
  · rw [h2]; exact h

/-- A character that lower-cases to something outside `a..z` was already that
character. -/
theorem pyLowerChar_eq_of_not_lower {c d : Char}
    (hd : d.toNat < 97 ∨ 122 < d.toNat) (h : pyLowerChar c = d) : c = d := by
  rcases pyLowerChar_spec c with ⟨h1, h2, h3⟩ | ⟨_, h2⟩
  · have := congrArg Char.toNat h
    omega
  · rw [← h2]; exact h

/-- Code-point characterisation of `Char.isAlpha`. -/
theorem isAlpha_iff (c : Char) :
    c.isAlpha = true ↔
      (65 ≤ c.toNat ∧ c.toNat ≤ 90) ∨ (97 ≤ c.toNat ∧ c.toNat ≤ 122) := by
  unfold Char.isAlpha Char.isUpper Char.isLower
  simp only [Bool.or_eq_true, Bool.and_eq_true, decide_eq_true_eq]
  constructor
  · rintro (⟨h1, h2⟩ | ⟨h1, h2⟩)
    · exact Or.inl ⟨h1, h2⟩
    · exact Or.inr ⟨h1, h2⟩
  · rintro (⟨h1, h2⟩ | ⟨h1, h2⟩)
    · exact Or.inl ⟨h1, h2⟩
    · exact Or.inr ⟨h1, h2⟩

/-- Lower-casing preserves alphabetic characters. -/
theorem pyLowerChar_isAlpha {c : Char} (h : c.isAlpha = true) :
    (pyLowerChar c).isAlpha = true := by
  rw [isAlpha_iff] at h ⊢
  rcases pyLowerChar_spec c with ⟨h1, h2, h3⟩ | ⟨_, h2⟩
  · omega
  · rw [h2]; exact h

/-- Digits are unchanged by lower-casing. -/
theorem isDigit_iff (c : Char) :
    c.isDigit = true ↔ 48 ≤ c.toNat ∧ c.toNat ≤ 57 := by
  unfold Char.isDigit
  simp only [Bool.and_eq_true, decide_eq_true_eq]
  exact ⟨fun ⟨h1, h2⟩ => ⟨h1, h2⟩, fun ⟨h1, h2⟩ => ⟨h1, h2⟩⟩

/-- Lower-casing preserves the URL scheme-character set. -/
theorem pyLowerChar_isSchemeChar {c : Char} (h : isSchemeChar c = true) :
    isSchemeChar (pyLowerChar c) = true := by
  unfold isSchemeChar at h ⊢
  rcases pyLowerChar_spec c with ⟨h1, h2, h3⟩ | ⟨_, h2⟩
  · have : (pyLowerChar c).isAlpha = true := by
      rw [isAlpha_iff]; omega
    simp [this]
  · rw [h2]; exact h

/-- A scheme character is never one of the structural URL delimiters. -/
theorem isSchemeChar_ne_delims {c : Char} (h : isSchemeChar c = true) :
    c ≠ ':' ∧ c ≠ '/' ∧ c ≠ '?' ∧ c ≠ '#' := by
  unfold isSchemeChar at h
  simp only [Bool.or_eq_true, decide_eq_true_eq] at h
  rcases h with (((ha | hd) | rfl) | rfl) | rfl
  · rw [isAlpha_iff] at ha
    refine ⟨?_, ?_, ?_, ?_⟩ <;> (rintro rfl; revert ha; decide)
  · rw [isDigit_iff] at hd
    refine ⟨?_, ?_, ?_, ?_⟩ <;> (rintro rfl; revert hd; decide)
  · decide
  · decide
  · decide

/-- `splitFirst` misses exactly when the delimiter is absent. -/
theorem splitFirst_eq_none {d : Char} {l : List Char} (h : d ∉ l) :
    splitFirst d l = none := by
  induction l with
  | nil => rfl
  | cons c cs ih =>
    unfold splitFirst
    rw [if_neg (fun he : c = d => h (he ▸ List.mem_cons_self c cs))]
    rw [ih (fun hm => h (List.mem_cons_of_mem c hm))]

/-- `splitFirst` at an explicit first occurrence. -/
theorem splitFirst_append {d : Char} {a b : List Char} (h : d ∉ a) :
    splitFirst d (a ++ d :: b) = some (a, b) := by
  induction a with
  | nil => simp [splitFirst]
  | cons c cs ih =>
    unfold splitFirst
    rw [List.cons_append]
    simp only []
    rw [if_neg (fun he : c = d => h (he ▸ List.mem_cons_self c cs))]
    rw [ih (fun hm => h (List.mem_cons_of_mem c hm))]

/-- Inversion of a successful `splitFirst`. -/
theorem splitFirst_some {d : Char} :
    ∀ {l a b : List Char}, splitFirst d l = some (a, b) →
      l = a ++ d :: b ∧ d ∉ a := by
  intro l
  induction l with
  | nil => intro a b h; exact absurd h (by simp [splitFirst])
  | cons c cs ih =>
    intro a b h
    unfold splitFirst at h
    by_cases hc : c = d
    · rw [if_pos hc] at h
      injection h with h
      injection h with h1 h2
      rw [← h1, ← h2, hc]
      exact ⟨rfl, List.not_mem_nil d⟩
    · rw [if_neg hc] at h
      cases hs : splitFirst d cs with
      | none => rw [hs] at h; simp at h
      | some p =>
        rw [hs] at h
        cases p with
        | mk a' b' =>
          simp only [] at h
          injection h with h
          injection h with h1 h2
          obtain ⟨hcs, hd⟩ := ih hs
          rw [← h1, ← h2, hcs]
          refine ⟨rfl, ?_⟩
          intro hm
          rcases List.mem_cons.mp hm with h1' | h1'
          · exact hc h1'.symm
          · exact hd h1'

/-- `takeWhile`/`dropWhile` of a concatenation that switches truth value at
the seam. -/
theorem takeWhile_dropWhile_append (p : Char → Bool) (xs ys : List Char)
    (h1 : ∀ a ∈ xs, p a = true) (h2 : ∀ y, ys.head? = some y → p y = false) :
    (xs ++ ys).takeWhile p = xs ∧ (xs ++ ys).dropWhile p = ys := by
  induction xs with
  | nil =>
    cases ys with
    | nil => exact ⟨rfl, rfl⟩
    | cons y ys' =>
      have := h2 y rfl
      simp [List.takeWhile, List.dropWhile, this]
  | cons x xs' ih =>
    have hx := h1 x (List.mem_cons_self x xs')
    obtain ⟨iht, ihd⟩ := ih (fun a ha => h1 a (List.mem_cons_of_mem x ha))
    constructor
    · rw [List.cons_append, List.takeWhile_cons, hx]
      simp [iht]
    · rw [List.cons_append, List.dropWhile_cons, hx]
      simp [ihd]

/-- The head of a `dropWhile` residue fails the predicate. -/
theorem dropWhile_head_not {p : Char → Bool} :
    ∀ {l : List Char} {y : Char}, (l.dropWhile p).head? = some y → p y = false := by
  intro l
  induction l with
  | nil => intro y h; simp [List.dropWhile] at h
  | cons c cs ih =>
    intro y h
    rw [List.dropWhile_cons] at h
    by_cases hc : p c = true
    · rw [hc] at h
      simp only [if_true] at h
      exact ih h
    · have hc' : p c = false := by simpa using hc
      rw [hc'] at h
      simp only [Bool.false_eq_true, if_false, List.head?_cons] at h
      injection h with h
      rw [← h]
      exact hc'

/-- `rstrip("/")` returns a prefix of its input. -/
theorem rstripSlash_prefixOf (cs : List Char) : rstripSlash cs <+: cs := by
  obtain ⟨t, ht⟩ :=
    (List.dropWhile_suffix (fun c => decide (c = '/')) :
      List.IsSuffix _ cs.reverse)
  refine ⟨t.reverse, ?_⟩
  have h2 := congrArg List.reverse ht
  rw [List.reverse_append, List.reverse_reverse] at h2
  exact h2

/-- `rstrip("/")` is idempotent. -/
theorem rstripSlash_idem (cs : List Char) :
    rstripSlash (rstripSlash cs) = rstripSlash cs := by
  unfold rstripSlash
  rw [List.reverse_reverse]
  cases hh : (cs.reverse.dropWhile (fun c => c = '/')).head? with
  | none =>
    have : cs.reverse.dropWhile (fun c => c = '/') = [] := by
      cases hcs : cs.reverse.dropWhile (fun c => c = '/') with
      | nil => rfl
      | cons a l => rw [hcs] at hh; simp at hh
    rw [this]
    rfl
  | some y =>
    have hy := dropWhile_head_not hh
    cases hcs : cs.reverse.dropWhile (fun c => c = '/') with
    | nil => rfl
    | cons a l =>
      rw [hcs] at hh
      injection hh with hh
      subst hh
      rw [List.dropWhile_cons, hy]
      simp

/-- `rstrip("/")` never returns the single-character string `"/"`. -/
theorem rstripSlash_ne_slash (cs : List Char) : rstripSlash cs ≠ ['/'] := by
  intro h
  unfold rstripSlash at h
  have := congrArg List.reverse h
  rw [List.reverse_reverse] at this
  have hh : (cs.reverse.dropWhile (fun c => c = '/')).head? = some '/' := by
    rw [this]; rfl
  have := dropWhile_head_not hh
  simp at this

/-- Nonempty `rstrip("/")` keeps the first character. -/
theorem rstripSlash_head (cs : List Char) (h : rstripSlash cs ≠ []) :
    (rstripSlash cs).head? = cs.head? := by
  obtain ⟨t, ht⟩ := rstripSlash_prefixOf cs
  cases hr : rstripSlash cs with
  | nil => exact absurd hr h
  | cons a l =>
    rw [hr] at ht
    rw [← ht]
    simp

/-- Members of `rstrip("/")` are members of the input. -/
theorem rstripSlash_mem {c : Char} {cs : List Char} (h : c ∈ rstripSlash cs) :
    c ∈ cs :=
  (rstripSlash_prefixOf cs).subset h

/-- Inversion of `urlsplit` with empty default scheme on an input unchanged
by the WHATWG cleanup, when it produced a nonempty scheme and netloc. -/
theorem urlsplit_inv (checks : StdlibChecks) (u : List Char) (s : SplitResult)
    (hclean : (u.dropWhile isC0OrSpace).filter (fun c => ¬ isUnsafeUrlByte c) = u)
    (h : urlsplit checks [] u = Except.ok s)
    (hs : s.scheme ≠ []) (hn : s.netloc ≠ []) :
    ∃ pre tail,
      splitFirst ':' u = some (pre, '/' :: '/' :: tail) ∧
      (∃ c cs, pre = c :: cs ∧ c.isAlpha = true) ∧
      pre.all isSchemeChar = true ∧
      s.scheme = pyLower pre ∧
      s.netloc = tail.takeWhile (fun c => ¬ isNetlocDelim c) ∧
      ∃ rest3,
        (splitFirst '#' (tail.dropWhile (fun c => ¬ isNetlocDelim c)) =
            some (rest3, s.fragment) ∨
          (splitFirst '#' (tail.dropWhile (fun c => ¬ isNetlocDelim c)) = none ∧
            rest3 = tail.dropWhile (fun c => ¬ isNetlocDelim c) ∧
            s.fragment = [])) ∧
        (splitFirst '?' rest3 = some (s.path, s.query) ∨
          (splitFirst '?' rest3 = none ∧ s.path = rest3 ∧ s.query = [])) := by
  unfold urlsplit at h
  dsimp only at h
  have hps : List.filter (fun c => decide (¬ isUnsafeUrlByte c = true))
      (pyStrip []) = [] := rfl
  rw [hps] at h
  rw [hclean] at h
  cases hsp : splitFirst ':' u with
  | none =>
    rw [hsp] at h
    dsimp only at h
    split at h
    · obtain ⟨_, _, h⟩ := bind_ok h
      simp only [bind, Except.bind, pure, Except.pure] at h
      obtain ⟨_, _, h⟩ := bind_ok h
      simp only [pure, Except.pure, Except.ok.injEq] at h
      rw [← h] at hs
      exact absurd rfl hs
    · simp only [bind, Except.bind, pure, Except.pure] at h
      have hck : checknetloc checks [] = Except.ok () := rfl
      rw [hck] at h
      simp only [Except.ok.injEq] at h
      rw [← h] at hs
      exact absurd rfl hs
  | some pp =>
    cases pp with
    | mk pre post =>
      rw [hsp] at h
      dsimp only at h
      cases pre with
      | nil =>
        dsimp only at h
        split at h
        · obtain ⟨_, _, h⟩ := bind_ok h
          simp only [bind, Except.bind, pure, Except.pure] at h
          obtain ⟨_, _, h⟩ := bind_ok h
          simp only [pure, Except.pure, Except.ok.injEq] at h
          rw [← h] at hs
          exact absurd rfl hs
        · simp only [bind, Except.bind, pure, Except.pure] at h
          have hck : checknetloc checks [] = Except.ok () := rfl
          rw [hck] at h
          simp only [Except.ok.injEq] at h
          rw [← h] at hs
          exact absurd rfl hs
      | cons c preTail =>
        dsimp only at h
        by_cases hsc : c.isAlpha = true ∧ (c :: preTail).all isSchemeChar = true
        · rw [if_pos hsc] at h
          dsimp only at h
          split at h
          case _ _ tl =>
            obtain ⟨_, hbr, h⟩ := bind_ok h
            simp only [bind, Except.bind, pure, Except.pure] at h
            obtain ⟨_, hcn, h⟩ := bind_ok h
            simp only [pure, Except.pure, Except.ok.injEq] at h
            subst h
            refine ⟨c :: preTail, tl, rfl, ⟨c, preTail, rfl, hsc.1⟩,
              hsc.2, rfl, rfl, ?_⟩
            cases hf : splitFirst '#'
                (List.dropWhile (fun c => decide (¬ isNetlocDelim c = true)) tl) with
            | none =>
              refine ⟨List.dropWhile (fun c => decide (¬ isNetlocDelim c = true)) tl,
                Or.inr ⟨rfl, rfl, by simp only [hf]⟩, ?_⟩
              cases hq : splitFirst '?'
                  (List.dropWhile (fun c => decide (¬ isNetlocDelim c = true)) tl) with
              | none =>
                refine Or.inr ⟨rfl, ?_, ?_⟩ <;> simp only [hf, hq]
              | some pq =>
                cases pq with
                | mk a b =>
                  refine Or.inl ?_
                  simp only [hf, hq]
            | some pf =>
              cases pf with
              | mk rest3 frag =>
                refine ⟨rest3, Or.inl (by simp only [hf]), ?_⟩
                cases hq : splitFirst '?' rest3 with
                | none =>
                  refine Or.inr ⟨rfl, ?_, ?_⟩ <;> simp only [hf, hq]
                | some pq =>
                  cases pq with
                  | mk a b =>
                    refine Or.inl ?_
                    simp only [hf, hq]
          case _ =>
            simp only [bind, Except.bind, pure, Except.pure] at h
            have hck : checknetloc checks [] = Except.ok () := rfl
            rw [hck] at h
            simp only [Except.ok.injEq] at h
            rw [← h] at hn
            exact absurd rfl hn
        · rw [if_neg hsc] at h
          dsimp only at h
          split at h
          · obtain ⟨_, _, h⟩ := bind_ok h
            simp only [bind, Except.bind, pure, Except.pure] at h
            obtain ⟨_, _, h⟩ := bind_ok h
            simp only [pure, Except.pure, Except.ok.injEq] at h
            rw [← h] at hs
            exact absurd rfl hs
          · simp only [bind, Except.bind, pure, Except.pure] at h
            have hck : checknetloc checks [] = Except.ok () := rfl
            rw [hck] at h
            simp only [Except.ok.injEq] at h
            rw [← h] at hs
            exact absurd rfl hs

/-- Scheme characters are printable ASCII. -/
theorem isSchemeChar_plain {c : Char} (h : isSchemeChar c = true) :
    0x20 < c.toNat ∧ c.toNat < 0x7f := by
  unfold isSchemeChar at h
  simp only [Bool.or_eq_true, decide_eq_true_eq] at h
  rcases h with (((ha | hd) | rfl) | rfl) | rfl
  · rw [isAlpha_iff] at ha
    omega
  · rw [isDigit_iff] at hd
    omega
  · decide
  · decide
  · decide

/-- Splitting an url rebuilt by `urlunsplit` from clean components recovers
exactly those components. -/
theorem urlsplit_of_unsplit (checks : StdlibChecks) (c0 : Char)
    (cs0 nl pa q : List Char)
    (halpha : c0.isAlpha = true)
    (hchars : (c0 :: cs0).all isSchemeChar = true)
    (hlower : pyLower (c0 :: cs0) = c0 :: cs0)
    (hnl_ne : nl ≠ [])
    (hnl_delim : ∀ c ∈ nl, isNetlocDelim c = false)
    (hnl_brl : '[' ∉ nl) (hnl_brr : ']' ∉ nl)
    (hnl_ascii : ∀ c ∈ nl, c.toNat < 128)
    (hpa : pa = [] ∨ ∃ t, pa = '/' :: t)
    (hpa_hash : '#' ∉ pa) (hpa_q : '?' ∉ pa)
    (hq_hash : '#' ∉ q)
    (hnl_plain : ∀ c ∈ nl, 0x20 < c.toNat ∧ c.toNat < 0x7f)
    (hpa_plain : ∀ c ∈ pa, 0x20 < c.toNat ∧ c.toNat < 0x7f)
    (hq_plain : ∀ c ∈ q, 0x20 < c.toNat ∧ c.toNat < 0x7f) :
    urlsplit checks [] (urlunsplit ⟨c0 :: cs0, nl, pa, q, []⟩) =
      Except.ok ⟨c0 :: cs0, nl, pa, q, []⟩ := by
  have hqt : ∀ c ∈ (if q = [] then ([] : List Char) else '?' :: q),
      c = '?' ∨ c ∈ q := by
    intro c hc
    by_cases hq0 : q = []
    · rw [if_pos hq0] at hc
      exact absurd hc (List.not_mem_nil c)
    · rw [if_neg hq0] at hc
      rcases List.mem_cons.mp hc with h1 | h1
      · exact Or.inl h1
      · exact Or.inr h1
  have hout : urlunsplit ⟨c0 :: cs0, nl, pa, q, []⟩ =
      (c0 :: cs0) ++ ':' :: '/' :: '/' ::
        ((nl ++ pa) ++ (if q = [] then [] else '?' :: q)) := by
    unfold urlunsplit
    dsimp only
    rw [if_pos (Or.inl hnl_ne)]
    have hpa1 : (if pa ≠ [] ∧ pa.take 1 ≠ ['/'] then '/' :: pa else pa) = pa := by
      rcases hpa with h1 | ⟨t, h1⟩
      · rw [if_neg]
        intro hcon
        exact hcon.1 h1
      · rw [if_neg]
        intro hcon
        rw [h1] at hcon
        exact hcon.2 rfl
    rw [hpa1]
    rw [if_pos (show (c0 :: cs0) ≠ [] from List.cons_ne_nil c0 cs0)]
    rw [if_neg (show ¬ (([] : List Char) ≠ []) from fun hcon => hcon rfl)]
    by_cases hq0 : q = []
    · rw [if_neg (show ¬ (q ≠ []) from fun hcon => hcon hq0), if_pos hq0]
      simp
    · rw [if_pos hq0, if_neg hq0]
      simp
  clear hqt
  have hc0 : 32 < c0.toNat ∧ c0.toNat < 127 := by
    rw [isAlpha_iff] at halpha
    omega
  have hC0c0 : isC0OrSpace c0 = false := by
    unfold isC0OrSpace
    simp only [decide_eq_false_iff_not]
    omega
  have hByteSafe : ∀ c : Char, 32 < c.toNat → isUnsafeUrlByte c = false := by
    intro c hc
    unfold isUnsafeUrlByte
    simp only [Bool.or_eq_false_iff, decide_eq_false_iff_not]
    refine ⟨⟨?_, ?_⟩, ?_⟩ <;> (rintro rfl; revert hc; decide)
  have hschemeMem : ∀ c ∈ c0 :: cs0, isSchemeChar c = true :=
    List.all_eq_true.mp hchars
  have hcolon : ':' ∉ c0 :: cs0 := fun hm =>
    (isSchemeChar_ne_delims (hschemeMem _ hm)).1 rfl
  have hschemePlain : ∀ c ∈ c0 :: cs0, 32 < c.toNat ∧ c.toNat < 127 :=
    fun c hc => isSchemeChar_plain (hschemeMem c hc)
  have hbr : checkNetlocBrackets checks nl = Except.ok () := by
    unfold checkNetlocBrackets
    rw [if_neg (show ¬ (('[' ∈ nl ∧ ']' ∉ nl) ∨ (']' ∈ nl ∧ '[' ∉ nl)) from by
      rintro (⟨h1, _⟩ | ⟨h1, _⟩)
      · exact hnl_brl h1
      · exact hnl_brr h1)]
    rw [if_neg (show ¬ ('[' ∈ nl ∧ ']' ∈ nl) from fun hcon => hnl_brl hcon.1)]
    rfl
  have hcknl : checknetloc checks nl = Except.ok () := by
    unfold checknetloc
    rw [if_pos (Or.inr (List.all_eq_true.mpr fun c hc => by
      simp [hnl_ascii c hc]))]
    rfl
  have hnl1 : ∀ a ∈ nl, (fun c => decide (¬ isNetlocDelim c = true)) a = true := by
    intro a ha
    simp [hnl_delim a ha]
  have hps : List.filter (fun c => decide (¬ isUnsafeUrlByte c = true))
      (pyStrip []) = [] := rfl
  by_cases hq0 : q = []
  · subst hq0
    rw [if_pos rfl] at hout
    rw [List.append_nil] at hout
    rw [hout]
    unfold urlsplit
    dsimp only
    rw [hps]
    have hmemOut : ∀ c ∈ (c0 :: cs0) ++ ':' :: '/' :: '/' :: (nl ++ pa),
        32 < c.toNat := by
      intro c hc
      rcases List.mem_append.mp hc with h1 | h1
      · exact (hschemePlain c h1).1
      · rcases List.mem_cons.mp h1 with rfl | h1
        · decide
        · rcases List.mem_cons.mp h1 with rfl | h1
          · decide
          · rcases List.mem_cons.mp h1 with rfl | h1
            · decide
            · rcases List.mem_append.mp h1 with h2 | h2
              · exact (hnl_plain c h2).1
              · exact (hpa_plain c h2).1
    have hdrop : List.dropWhile isC0OrSpace
        ((c0 :: cs0) ++ ':' :: '/' :: '/' :: (nl ++ pa)) =
        (c0 :: cs0) ++ ':' :: '/' :: '/' :: (nl ++ pa) := by
      rw [List.cons_append, List.dropWhile_cons, hC0c0]
      simp
    rw [hdrop]
    have hfil : List.filter (fun c => decide (¬ isUnsafeUrlByte c = true))
        ((c0 :: cs0) ++ ':' :: '/' :: '/' :: (nl ++ pa)) =
        (c0 :: cs0) ++ ':' :: '/' :: '/' :: (nl ++ pa) := by
      rw [List.filter_eq_self]
      intro c hc
      simp [hByteSafe c (hmemOut c hc)]
    rw [hfil]
    rw [splitFirst_append hcolon]
    dsimp only
    rw [if_pos ⟨halpha, hchars⟩]
    dsimp only
    obtain ⟨htw1, htw2⟩ := takeWhile_dropWhile_append _ nl pa hnl1 (by
      rcases hpa with rfl | ⟨t, rfl⟩
      · intro y hy
        simp at hy
      · intro y hy
        simp only [List.head?_cons] at hy
        injection hy with hy
        rw [← hy]
        decide)
    split
    · rename_i tl heq
      injection heq with h1 heq
      injection heq with h2 heq
      subst heq
      rw [htw1, htw2, hbr]
      simp only [bind, Except.bind, pure, Except.pure]
      rw [hcknl]
      dsimp only
      rw [splitFirst_eq_none hpa_hash]
      dsimp only
      rw [splitFirst_eq_none hpa_q]
      dsimp only
      rw [hlower]
    · rename_i hfalse
      exact absurd rfl (hfalse (nl ++ pa))
  · rw [if_neg hq0] at hout
    rw [hout]
    unfold urlsplit
    dsimp only
    rw [hps]
    have hmemOut : ∀ c ∈ (c0 :: cs0) ++ ':' :: '/' :: '/' ::
        ((nl ++ pa) ++ '?' :: q), 32 < c.toNat := by
      intro c hc
      rcases List.mem_append.mp hc with h1 | h1
      · exact (hschemePlain c h1).1
      · rcases List.mem_cons.mp h1 with rfl | h1
        · decide
        · rcases List.mem_cons.mp h1 with rfl | h1
          · decide
          · rcases List.mem_cons.mp h1 with rfl | h1
            · decide
            · rcases List.mem_append.mp h1 with h2 | h2
              · rcases List.mem_append.mp h2 with h3 | h3
                · exact (hnl_plain c h3).1
                · exact (hpa_plain c h3).1
              · rcases List.mem_cons.mp h2 with rfl | h3
                · decide
                · exact (hq_plain c h3).1
    have hdrop : List.dropWhile isC0OrSpace
        ((c0 :: cs0) ++ ':' :: '/' :: '/' :: ((nl ++ pa) ++ '?' :: q)) =
        (c0 :: cs0) ++ ':' :: '/' :: '/' :: ((nl ++ pa) ++ '?' :: q) := by
      rw [List.cons_append, List.dropWhile_cons, hC0c0]
      simp
    rw [hdrop]
    have hfil : List.filter (fun c => decide (¬ isUnsafeUrlByte c = true))
        ((c0 :: cs0) ++ ':' :: '/' :: '/' :: ((nl ++ pa) ++ '?' :: q)) =
        (c0 :: cs0) ++ ':' :: '/' :: '/' :: ((nl ++ pa) ++ '?' :: q) := by
      rw [List.filter_eq_self]
      intro c hc
      simp [hByteSafe c (hmemOut c hc)]
    rw [hfil]
    rw [splitFirst_append hcolon]
    dsimp only
    rw [if_pos ⟨halpha, hchars⟩]
    dsimp only
    rw [List.append_assoc]
    obtain ⟨htw1, htw2⟩ := takeWhile_dropWhile_append _ nl (pa ++ '?' :: q)
      hnl1 (by
      rcases hpa with rfl | ⟨t, rfl⟩
      · intro y hy
        simp only [List.nil_append, List.head?_cons] at hy
        injection hy with hy
        rw [← hy]
        decide
      · intro y hy
        simp only [List.cons_append, List.head?_cons] at hy
        injection hy with hy
        rw [← hy]
        decide)
    split
    · rename_i tl heq
      injection heq with h1 heq
      injection heq with h2 heq
      subst heq
      rw [htw1, htw2, hbr]
      simp only [bind, Except.bind, pure, Except.pure]
      rw [hcknl]
      dsimp only
      have hnohash : '#' ∉ pa ++ '?' :: q := by
        intro hm
        rcases List.mem_append.mp hm with h1 | h1
        · exact hpa_hash h1
        · rcases List.mem_cons.mp h1 with h2 | h2
          · exact absurd h2 (by decide)
          · exact hq_hash h2
      rw [splitFirst_eq_none hnohash]
      dsimp only
      rw [splitFirst_append hpa_q]
      dsimp only
      rw [hlower]
    · rename_i hfalse
      exact absurd rfl (hfalse (nl ++ (pa ++ '?' :: q)))



/-- A missed `splitFirst` means the delimiter is absent. -/
theorem splitFirst_none_mem {d : Char} :
    ∀ {l : List Char}, splitFirst d l = none → d ∉ l := by
  intro l
  induction l with
  | nil => intro _ hm; exact absurd hm (List.not_mem_nil d)
  | cons c cs ih =>
    intro h hm
    unfold splitFirst at h
    by_cases hc : c = d
    · rw [if_pos hc] at h
      simp at h
    · rw [if_neg hc] at h
      cases hs : splitFirst d cs with
      | none =>
        rcases List.mem_cons.mp hm with h1 | h1
        · exact hc h1.symm
        · exact ih hs h1
      | some p =>
        rw [hs] at h
        cases p with
        | mk a b => simp at h

/-- Lower-casing never creates a netloc delimiter. -/
theorem pyLowerChar_not_delim {c : Char} (h : isNetlocDelim c = false) :
    isNetlocDelim (pyLowerChar c) = false := by
  rcases pyLowerChar_spec c with ⟨h1, h2, h3⟩ | ⟨_, h2⟩
  · unfold isNetlocDelim
    simp only [Bool.or_eq_false_iff, decide_eq_false_iff_not]
    refine ⟨⟨?_, ?_⟩, ?_⟩ <;>
      (intro he; rw [he] at h3; revert h3)
    · rw [show ('/' : Char).toNat = 47 from rfl]; omega
    · rw [show ('?' : Char).toNat = 63 from rfl]; omega
    · rw [show ('#' : Char).toNat = 35 from rfl]; omega
  · rw [h2]; exact h

/-- Lower-casing never creates a square bracket. -/
theorem pyLowerChar_not_bracket {c d : Char}
    (hd : d = '[' ∨ d = ']') (h : c ≠ d) : pyLowerChar c ≠ d := by
  intro he
  refine h (pyLowerChar_eq_of_not_lower ?_ he)
  rcases hd with rfl | rfl
  · left; rw [show ('[' : Char).toNat = 91 from rfl]; omega
  · left; rw [show (']' : Char).toNat = 93 from rfl]; omega

/-- Normalised-path reconstruction facts used by the idempotence proof. -/
theorem mem_takeWhile_pred {p : Char → Bool} :
    ∀ {l : List Char} {x : Char}, x ∈ l.takeWhile p → p x = true := by
  intro l
  induction l with
  | nil => intro x hx; simp [List.takeWhile] at hx
  | cons c cs ih =>
    intro x hx
    rw [List.takeWhile_cons] at hx
    by_cases hc : p c = true
    · rw [hc] at hx
      simp only [if_true] at hx
      rcases List.mem_cons.mp hx with rfl | hx
      · exact hc
      · exact ih hx
    · have hc' : p c = false := by simpa using hc
      rw [hc'] at hx
      simp at hx

/-- C9 (amended): the traversal URL normalizer is idempotent on every
printable-ASCII URL without semicolons or square brackets whose parse has a
nonempty scheme and netloc; in general it is not (see the counterexample:
semicolon path parameters re-split after the trailing-slash strip). -/
theorem C9_normalize_idempotent (checks : StdlibChecks) (u : List Char)
    (hplainU : ∀ c ∈ u, 0x20 < c.toNat ∧ c.toNat < 0x7f)
    (hsemi : ';' ∉ u) (hbrl : '[' ∉ u) (hbrr : ']' ∉ u)
    (p : ParseResult) (hp0 : urlparse checks [] u = Except.ok p)
    (hs0 : p.scheme ≠ []) (hn0 : p.netloc ≠ [])
    (v : List Char) (hv : serviceNormalizeUrl checks u = Except.ok v) :
    serviceNormalizeUrl checks v = Except.ok v := by
  -- cleaning is the identity on printable-ASCII input
  have hclean : (u.dropWhile isC0OrSpace).filter
      (fun c => ¬ isUnsafeUrlByte c) = u := by
    have hdropu : u.dropWhile isC0OrSpace = u := by
      cases u with
      | nil => rfl
      | cons c cs =>
        rw [List.dropWhile_cons]
        have hc : isC0OrSpace c = false := by
          unfold isC0OrSpace
          simp only [decide_eq_false_iff_not]
          have := (hplainU c (List.mem_cons_self c cs)).1
          omega
        rw [hc]
        simp
    rw [hdropu]
    refine List.filter_eq_self.mpr ?_
    intro c hc
    have h32 := (hplainU c hc).1
    have hus : isUnsafeUrlByte c = false := by
      unfold isUnsafeUrlByte
      simp only [Bool.or_eq_false_iff, decide_eq_false_iff_not]
      refine ⟨⟨?_, ?_⟩, ?_⟩ <;> (rintro rfl; revert h32; decide)
    simp [hus]
  -- invert the parse of u
  have hp := hp0
  unfold urlparse at hp
  obtain ⟨s, hsplit, hp⟩ := bind_ok hp
  dsimp only at hp
  -- the record assembled by urlparse always carries the split's scheme/netloc
  have hs' : s.scheme ≠ [] := by
    by_cases hg : s.scheme ∈ usesParams ∧ ';' ∈ s.path
    · rw [if_pos hg] at hp
      simp only [pure, Except.pure, Except.ok.injEq] at hp
      rw [← hp] at hs0
      exact hs0
    · rw [if_neg hg] at hp
      simp only [pure, Except.pure, Except.ok.injEq] at hp
      rw [← hp] at hs0
      exact hs0
  have hn' : s.netloc ≠ [] := by
    by_cases hg : s.scheme ∈ usesParams ∧ ';' ∈ s.path
    · rw [if_pos hg] at hp
      simp only [pure, Except.pure, Except.ok.injEq] at hp
      rw [← hp] at hn0
      exact hn0
    · rw [if_neg hg] at hp
      simp only [pure, Except.pure, Except.ok.injEq] at hp
      rw [← hp] at hn0
      exact hn0
  obtain ⟨pre, tl, hsp, ⟨c, cs, hpre, halpha⟩, hchars, hscheme, hnetloc,
    rest3, hfragOr, hpathOr⟩ := urlsplit_inv checks u s hclean hsplit hs' hn'
  -- membership chains down to u
  have hu_decomp := (splitFirst_some hsp).1
  have htl_sub : ∀ x ∈ tl, x ∈ u := by
    intro x hx
    rw [hu_decomp]
    refine List.mem_append.mpr (Or.inr ?_)
    simp [hx]
  have hrm_sub : ∀ x ∈ tl.dropWhile (fun c => ¬ isNetlocDelim c), x ∈ tl :=
    fun x hx => (List.dropWhile_sublist _).mem hx
  have hrest3_sub : ∀ x ∈ rest3, x ∈ tl.dropWhile (fun c => ¬ isNetlocDelim c) := by
    rcases hfragOr with hfragS | ⟨hfragN, hrest3eq, hfragNil⟩
    · intro x hx
      rw [(splitFirst_some hfragS).1]
      exact List.mem_append.mpr (Or.inl hx)
    · intro x hx
      rw [← hrest3eq]
      exact hx
  have hnohash_rest3 : '#' ∉ rest3 := by
    rcases hfragOr with hfragS | ⟨hfragN, hrest3eq, hfragNil⟩
    · exact (splitFirst_some hfragS).2
    · rw [hrest3eq]
      exact splitFirst_none_mem hfragN
  have hpath_sub : ∀ x ∈ s.path, x ∈ rest3 := by
    rcases hpathOr with hqS | ⟨hqN, hpatheq, hqnil⟩
    · intro x hx
      rw [(splitFirst_some hqS).1]
      exact List.mem_append.mpr (Or.inl hx)
    · intro x hx
      rw [hpatheq] at hx
      exact hx
  have hq_sub : ∀ x ∈ s.query, x ∈ rest3 := by
    rcases hpathOr with hqS | ⟨hqN, hpatheq, hqnil⟩
    · intro x hx
      rw [(splitFirst_some hqS).1]
      refine List.mem_append.mpr (Or.inr ?_)
      simp [hx]
    · intro x hx
      rw [hqnil] at hx
      exact absurd hx (List.not_mem_nil x)
  have hpath_u : ∀ x ∈ s.path, x ∈ u :=
    fun x hx => htl_sub x (hrm_sub x (hrest3_sub x (hpath_sub x hx)))
  have hq_u : ∀ x ∈ s.query, x ∈ u :=
    fun x hx => htl_sub x (hrm_sub x (hrest3_sub x (hq_sub x hx)))
  have hnl_sub : ∀ x ∈ s.netloc, x ∈ tl := by
    intro x hx
    rw [hnetloc] at hx
    exact (List.takeWhile_sublist _).mem hx
  have hnl_u : ∀ x ∈ s.netloc, x ∈ u := fun x hx => htl_sub x (hnl_sub x hx)
  -- no semicolon in the split path, so urlparse kept it whole
  have hsemi_path : ';' ∉ s.path := fun hm => hsemi (hpath_u ';' hm)
  rw [if_neg (fun hg : s.scheme ∈ usesParams ∧ ';' ∈ s.path =>
    hsemi_path hg.2)] at hp
  simp only [pure, Except.pure, Except.ok.injEq] at hp
  subst hp
  -- path-head shape and absent delimiters
  have hhash_path : '#' ∉ s.path := fun hm => hnohash_rest3 (hpath_sub '#' hm)
  have hqm_path : '?' ∉ s.path := by
    rcases hpathOr with hqS | ⟨hqN, hpatheq, hqnil⟩
    · exact (splitFirst_some hqS).2
    · rw [hpatheq]
      exact splitFirst_none_mem hqN
  have hpath_shape : s.path = [] ∨ ∃ t, s.path = '/' :: t := by
    cases hpe : s.path with
    | nil => exact Or.inl rfl
    | cons x xs =>
      right
      have hrest3_head : rest3.head? = some x := by
        rcases hpathOr with hqS | ⟨hqN, hpatheq, hqnil⟩
        · rw [(splitFirst_some hqS).1, hpe]
          simp
        · rw [← hpatheq, hpe]
          simp
      have hrm_head : (tl.dropWhile (fun c => ¬ isNetlocDelim c)).head? =
          some x := by
        rcases hfragOr with hfragS | ⟨hfragN, hrest3eq, hfragNil⟩
        · rw [(splitFirst_some hfragS).1]
          cases hre : rest3 with
          | nil => rw [hre] at hrest3_head; simp at hrest3_head
          | cons r rs =>
            rw [hre] at hrest3_head
            simp only [List.head?_cons] at hrest3_head
            injection hrest3_head with hrx
            rw [hrx]
            simp
        · rw [← hrest3eq]
          exact hrest3_head
      have hx_delim : isNetlocDelim x = true := by
        have := dropWhile_head_not hrm_head
        simpa using this
      unfold isNetlocDelim at hx_delim
      simp only [Bool.or_eq_true, decide_eq_true_eq] at hx_delim
      rcases hx_delim with (rfl | rfl) | rfl
      · exact ⟨xs, rfl⟩
      · exact absurd (by rw [hpe]; exact List.mem_cons_self _ _) hqm_path
      · exact absurd (by rw [hpe]; exact List.mem_cons_self _ _) hhash_path
  have hplain_path : ∀ x ∈ s.path, 32 < x.toNat ∧ x.toNat < 127 :=
    fun x hx => hplainU x (hpath_u x hx)
  -- netloc character facts
  have hnl_delim : ∀ x ∈ s.netloc, isNetlocDelim x = false := by
    intro x hx
    rw [hnetloc] at hx
    have := mem_takeWhile_pred hx
    simpa using this
  have hnl_brl : '[' ∉ s.netloc := fun hm => hbrl (hnl_u _ hm)
  have hnl_brr : ']' ∉ s.netloc := fun hm => hbrr (hnl_u _ hm)
  have hnl_plain : ∀ x ∈ s.netloc, 32 < x.toNat ∧ x.toNat < 127 :=
    fun x hx => hplainU x (hnl_u x hx)
  -- query facts
  have hq_hash : '#' ∉ s.query := fun hm => hnohash_rest3 (hq_sub '#' hm)
  have hq_plain : ∀ x ∈ s.query, 32 < x.toNat ∧ x.toNat < 127 :=
    fun x hx => hplainU x (hq_u x hx)
  -- compute v from the first normalization
  unfold serviceNormalizeUrl at hv
  rw [hp0] at hv
  simp only [bind, Except.bind, pure, Except.pure, Except.ok.injEq] at hv
  subst hv
  set npe := (if s.path = [] ∨ s.path = ['/'] then ([] : List Char)
    else rstripSlash s.path) with hnpe
  -- normalized-path facts
  have hnp_or : npe = [] ∨ ∃ t, npe = '/' :: t := by
    rw [hnpe]
    by_cases hc : s.path = [] ∨ s.path = ['/']
    · rw [if_pos hc]
      exact Or.inl rfl
    · rw [if_neg hc]
      rcases hpath_shape with h1 | ⟨t, h1⟩
      · exact absurd (Or.inl h1) hc
      · by_cases h0 : rstripSlash s.path = []
        · exact Or.inl h0
        · right
          have hh2 : (rstripSlash s.path).head? = some '/' := by
            rw [rstripSlash_head s.path h0, h1]
            rfl
          cases hr : rstripSlash s.path with
          | nil => exact absurd hr h0
          | cons a l =>
            rw [hr] at hh2
            simp only [List.head?_cons] at hh2
            injection hh2 with hh2
            rw [hh2]
            exact ⟨l, rfl⟩
  have hnp_mem : ∀ x ∈ npe, x ∈ s.path := by
    rw [hnpe]
    by_cases hc : s.path = [] ∨ s.path = ['/']
    · rw [if_pos hc]
      intro x hx
      exact absurd hx (List.not_mem_nil x)
    · rw [if_neg hc]
      intro x hx
      exact rstripSlash_mem hx
  have hnp_semi : ';' ∉ npe := fun hm => hsemi_path (hnp_mem ';' hm)
  have hnp_hash : '#' ∉ npe := fun hm => hhash_path (hnp_mem '#' hm)
  have hnp_q : '?' ∉ npe := fun hm => hqm_path (hnp_mem '?' hm)
  have hnp_plain : ∀ x ∈ npe, 32 < x.toNat ∧ x.toNat < 127 :=
    fun x hx => hplain_path x (hnp_mem x hx)
  have hnp_stable : (if npe = [] ∨ npe = ['/'] then ([] : List Char)
      else rstripSlash npe) = npe := by
    by_cases h0 : npe = []
    · rw [if_pos (Or.inl h0), h0]
    · have hdef : npe = rstripSlash s.path := by
        rw [hnpe]
        by_cases hc : s.path = [] ∨ s.path = ['/']
        · rw [hnpe] at h0
          rw [if_pos hc] at h0
          exact absurd rfl h0
        · rw [if_neg hc]
      have hne : npe ≠ ['/'] := by
        rw [hdef]
        exact rstripSlash_ne_slash s.path
      rw [if_neg (by rintro (h1 | h1); exacts [h0 h1, hne h1])]
      rw [hdef, rstripSlash_idem]
  -- the lower-cased scheme in explicit cons form
  rw [hpre] at hchars
  have hschemeShape : pyLower s.scheme = pyLowerChar c :: pyLower cs := by
    rw [hscheme, pyLower_idem, hpre]
    rfl
  have halpha' : (pyLowerChar c).isAlpha = true := pyLowerChar_isAlpha halpha
  have hchars' : (pyLowerChar c :: pyLower cs).all isSchemeChar = true := by
    refine List.all_eq_true.mpr ?_
    intro d hd
    have hd' : d ∈ List.map pyLowerChar (c :: cs) := hd
    obtain ⟨e, he, rfl⟩ := List.mem_map.mp hd'
    exact pyLowerChar_isSchemeChar (List.all_eq_true.mp hchars e he)
  have hlower' : pyLower (pyLowerChar c :: pyLower cs) =
      pyLowerChar c :: pyLower cs := by
    have hsh : pyLowerChar c :: pyLower cs = pyLower (c :: cs) := rfl
    rw [hsh, pyLower_idem]
  have hnl_ne' : pyLower s.netloc ≠ [] := by
    simp only [pyLower, ne_eq, List.map_eq_nil_iff]
    exact hn'
  have hnl_delim' : ∀ x ∈ pyLower s.netloc, isNetlocDelim x = false := by
    intro x hx
    obtain ⟨e, he, rfl⟩ := List.mem_map.mp hx
    exact pyLowerChar_not_delim (hnl_delim e he)
  have hnl_brl' : '[' ∉ pyLower s.netloc := by
    intro hm
    obtain ⟨e, he, hlow⟩ := List.mem_map.mp hm
    exact pyLowerChar_not_bracket (Or.inl rfl)
      (fun hec => hnl_brl (hec ▸ he)) hlow
  have hnl_brr' : ']' ∉ pyLower s.netloc := by
    intro hm
    obtain ⟨e, he, hlow⟩ := List.mem_map.mp hm
    exact pyLowerChar_not_bracket (Or.inr rfl)
      (fun hec => hnl_brr (hec ▸ he)) hlow
  have hnl_plain' : ∀ x ∈ pyLower s.netloc, 32 < x.toNat ∧ x.toNat < 127 := by
    intro x hx
    obtain ⟨e, he, rfl⟩ := List.mem_map.mp hx
    exact pyLowerChar_plain (hnl_plain e he)
  have hnl_ascii' : ∀ x ∈ pyLower s.netloc, x.toNat < 128 := by
    intro x hx
    have := (hnl_plain' x hx).2
    omega
  have hsplit2 := urlsplit_of_unsplit checks (pyLowerChar c) (pyLower cs)
    (pyLower s.netloc) npe s.query halpha' hchars' hlower' hnl_ne'
    hnl_delim' hnl_brl' hnl_brr' hnl_ascii' hnp_or hnp_hash hnp_q hq_hash
    hnl_plain' hnp_plain hq_plain
  have hparse2 : urlparse checks []
      (urlunsplit ⟨pyLowerChar c :: pyLower cs, pyLower s.netloc, npe,
        s.query, []⟩) =
      Except.ok ⟨pyLowerChar c :: pyLower cs, pyLower s.netloc, npe, [],
        s.query, []⟩ := by
    unfold urlparse
    rw [hsplit2]
    simp only [bind, Except.bind]
    rw [if_neg (fun hg : (pyLowerChar c :: pyLower cs) ∈ usesParams ∧
      ';' ∈ npe => hnp_semi hg.2)]
    rfl
  have hV : urlunparse ⟨pyLower s.scheme, pyLower s.netloc, npe, [],
      s.query, []⟩ =
      urlunsplit ⟨pyLowerChar c :: pyLower cs, pyLower s.netloc, npe,
        s.query, []⟩ := by
    rw [hschemeShape]
    unfold urlunparse
    dsimp only
    rw [if_neg (show ¬ (([] : List Char) ≠ []) from fun hcon => hcon rfl)]
  rw [hV]
  unfold serviceNormalizeUrl
  rw [hparse2]
  simp only [bind, Except.bind, pure, Except.pure]
  rw [hnp_stable, hlower', pyLower_idem]
  rw [show urlunparse ⟨pyLowerChar c :: pyLower cs, pyLower s.netloc, npe, [],
      s.query, []⟩ =
      urlunsplit ⟨pyLowerChar c :: pyLower cs, pyLower s.netloc, npe,
        s.query, []⟩ from by
    unfold urlunparse
    dsimp only
    rw [if_neg (show ¬ (([] : List Char) ≠ []) from fun hcon => hcon rfl)]]


/-- C9 counterexample: the normalizer is NOT idempotent on every URL —
stripping the trailing slash of <<http://h/a/;b/>> exposes a semicolon after
the last remaining slash, so the second pass splits path parameters that the
first pass did not, yielding <<http://h/a;b>>. -/
theorem C9_counterexample :
    serviceNormalizeUrl (StdlibChecks.mk (fun _ => true) (fun _ => true))
      "http://h/a/;b/".data = Except.ok "http://h/a/;b".data ∧
    serviceNormalizeUrl (StdlibChecks.mk (fun _ => true) (fun _ => true))
      "http://h/a/;b".data = Except.ok "http://h/a;b".data ∧
    "http://h/a/;b".data ≠ "http://h/a;b".data :=
  ⟨rfl, rfl, by decide⟩

/-- C9 witness: the amended idempotence theorem applied to the concrete URL
<<HTTP://Example.COM/A/B/>>, whose normal form <<http://example.com/A/B>> is a
fixed point of the normalizer. -/
theorem C9_witness :
    serviceNormalizeUrl (StdlibChecks.mk (fun _ => true) (fun _ => true))
      "HTTP://Example.COM/A/B/".data =
      Except.ok "http://example.com/A/B".data ∧
    serviceNormalizeUrl (StdlibChecks.mk (fun _ => true) (fun _ => true))
      "http://example.com/A/B".data =
      Except.ok "http://example.com/A/B".data := by
  refine ⟨rfl, ?_⟩
  exact C9_normalize_idempotent
    (StdlibChecks.mk (fun _ => true) (fun _ => true))
    "HTTP://Example.COM/A/B/".data (by decide) (by decide) (by decide)
    (by decide)
    ⟨"http".data, "Example.COM".data, "/A/B/".data, [], [], []⟩ rfl
    (by decide) (by decide)
    "http://example.com/A/B".data rfl


end PersonalServer
